import Mathlib

/-!
Verification development for the lf6000 lead-generation pipeline.

The JavaScript sources are shallowly embedded as executable Lean
definitions.  Network I/O is modelled by an explicit oracle
(a function from request URL to response); JavaScript exceptions are
modelled with `Except`; the mutable per-process memoization cache and
the mutable run state are threaded explicitly.  JS strings are modelled
by Lean `String` (well-formed Unicode; JS `toLowerCase` is modelled on
the ASCII range, which is the range relevant to hostnames and the
extracted emails).
-/

namespace LF6000

/-! ## Character and string helpers (models of the JS primitives used) -/

/-- Model of JS `toLowerCase` on one character (ASCII range). -/
def lowChar (c : Char) : Char :=
  if 65 ≤ c.toNat ∧ c.toNat ≤ 90 then Char.ofNat (c.toNat + 32) else c

def lowerL (l : List Char) : List Char := l.map lowChar

/-- Model of `s.toLowerCase()`. -/
def lowerStr (s : String) : String := String.mk (lowerL s.data)

/-- `[a-z]` / `[A-Z]` character class. -/
def isAlphaChar (c : Char) : Bool := (65 ≤ c.toNat && c.toNat ≤ 90) || (97 ≤ c.toNat && c.toNat ≤ 122)

/-- Characters that terminate the host part of an URL. -/
def isHostEnd (c : Char) : Bool := c = '/' || c = '?' || c = '#'

/-- Substring test, models JS `String.prototype.includes`. -/
def containsSub (l pat : List Char) : Bool :=
  match l with
  | [] => pat.isPrefixOf ([] : List Char)
  | _ :: rest => pat.isPrefixOf l || containsSub rest pat

/-- Suffix test, models JS `String.prototype.endsWith`. -/
def endsWithL (l pat : List Char) : Bool := pat.isSuffixOf l

def endsWithStr (s pat : String) : Bool := endsWithL s.data pat.data

/-- Split a character list at every occurrence of `sep`, models JS
`String.prototype.split` with a one-character separator. -/
def splitCharAux (sep : Char) : List Char → List Char → List (List Char)
  | [], acc => [acc.reverse]
  | c :: rest, acc =>
    if c = sep then acc.reverse :: splitCharAux sep rest []
    else splitCharAux sep rest (c :: acc)

def splitChar (sep : Char) (l : List Char) : List (List Char) :=
  splitCharAux sep l []

/-- Insertion-order duplicate removal, models iterating a JS `Set`. -/
def addUnique (acc : List String) (e : String) : List String :=
  if e ∈ acc then acc else acc ++ [e]

def dedupeFirst (l : List String) : List String := l.foldl addUnique []

/-- `uniqLower` from src/enrich.js: `[...new Set(arr.map(s => s.toLowerCase()))]`. -/
def uniqLower (l : List String) : List String := dedupeFirst (l.map lowerStr)

/-! ## URL model

A simplified model of the WHATWG URL parser as used through `new URL`:
`scheme://host rest` where `rest` is the serialized path-plus-query and
the fragment is dropped (`normUrl` clears `url.hash` before
serializing).  Not modelled: userinfo, port normalization/validation,
percent-encoding, IDNA beyond ASCII lowercasing, and dot-segment
resolution; none of these affect the properties proved below. -/

structure UrlRec where
  scheme : List Char
  host : List Char
  rest : List Char
deriving Repr, DecidableEq

/-- The WHATWG "special" schemes (their empty path serializes as `/`). -/
def specialSchemes : List (List Char) :=
  ["http".data, "https".data, "ws".data, "wss".data, "ftp".data, "file".data]

def isSpecial (sch : List Char) : Bool := specialSchemes.contains sch

/-- The serialized path-and-query: a special scheme with an empty or
query-only path gets the canonical `/`. -/
def restSer (r : UrlRec) : List Char :=
  if isSpecial r.scheme ∧ (r.rest = [] ∨ r.rest.head? = some '?')
  then '/' :: r.rest else r.rest

def serializeUrl (r : UrlRec) : List Char :=
  r.scheme ++ (':' :: '/' :: '/' :: []) ++ r.host ++ restSer r

/-- Split the post-authority part of an URL: host up to the first of
`/ ? #`, then the path-and-query up to the first `#`. -/
def parseAfter (sch after : List Char) : Option UrlRec :=
  if after.takeWhile (fun c => !isHostEnd c) = [] then none
  else some ⟨lowerL sch,
             lowerL (after.takeWhile (fun c => !isHostEnd c)),
             (after.dropWhile (fun c => !isHostEnd c)).takeWhile (fun c => c ≠ '#')⟩

def parseAbs (l : List Char) : Option UrlRec :=
  if l.takeWhile isAlphaChar = [] then none
  else if (l.dropWhile isAlphaChar).take 3 = [':', '/', '/'] then
    parseAfter (l.takeWhile isAlphaChar) ((l.dropWhile isAlphaChar).drop 3)
  else none

/-- The scheme test `/^[a-z]+:\/\//i` from `normUrl`. -/
def hasProto (l : List Char) : Bool :=
  decide (l.takeWhile isAlphaChar ≠ []) && decide ((l.dropWhile isAlphaChar).take 3 = [':', '/', '/'])

/-- `normUrl` from src/enrich.js, list level: inject `https://` when the
scheme is missing, parse, clear the fragment, serialize. -/
def normUrlL (l : List Char) : Option (List Char) :=
  if l = [] then none
  else (parseAbs (if hasProto l then l else "https://".data ++ l)).map serializeUrl

/-- `normUrl(u)`: `null`/empty input gives `null`; otherwise parse and
re-serialize, or `null` when `new URL` would throw. -/
def normUrl (s : Option String) : Option String :=
  match s with
  | none => none
  | some s => (normUrlL s.data).map String.mk

/-- `new URL(siteUrl).hostname`; only applied to `normUrl` outputs,
where the parse cannot fail (the default is unreachable there). -/
def hostOfUrl (s : String) : String :=
  match parseAbs s.data with
  | some r => String.mk r.host
  | none => ""

/-- Directory of the path in `rest` (for relative-reference resolution). -/
def dirOf (rest : List Char) : List Char :=
  let p := rest.takeWhile (fun c => c ≠ '?')
  let rev := p.reverse.dropWhile (fun c => c ≠ '/')
  if rev = [] then ['/'] else rev.reverse

/-- `absoluteUrl(base, href)` = `new URL(href, base).toString()`, simplified:
absolute `href`s are reparsed, root-relative and path-relative references are
resolved against `base`.  Fragments are dropped (the real resolver keeps
them; no property below depends on fragments). -/
def absoluteUrlL (base href : List Char) : Option (List Char) :=
  if hasProto href then (parseAbs href).map serializeUrl
  else
    match parseAbs base with
    | none => none
    | some b =>
      if href.head? = some '/' then
        some (serializeUrl ⟨b.scheme, b.host, href.takeWhile (fun c => c ≠ '#')⟩)
      else
        some (serializeUrl ⟨b.scheme, b.host, dirOf b.rest ++ href.takeWhile (fun c => c ≠ '#')⟩)

def absoluteUrl (base href : String) : Option String :=
  (absoluteUrlL base.data href.data).map String.mk

/-! ## Email scoring (`bestEmailForDomain`, src/enrich.js)

`score` adds `+50` for an exact domain match, `+40` for a subdomain
(`domain.endsWith('.' + host)`), `+8` for a role-account local part,
`-20` for a free-webmail domain, and `-0.1` per character beyond the
24th.  JS numbers are modelled by `ℚ` (exact decimal arithmetic; the
source operates on IEEE doubles, whose rounding is irrelevant at these
magnitudes).  `e.split('@')[1]` is `none` when `e` has no `@`; the JS
comparator then dereferences `undefined` and throws, which the
`Except`-typed `bestEmailForDomain` reflects: V8 sorting calls the
comparator on every element whenever the array has at least two
entries. -/

def roleLocals : List String :=
  ["info", "contact", "hello", "office", "support", "sales",
   "bookings", "admin", "team", "service", "hi"]

def freeMailProviders : List String :=
  ["gmail.com", "yahoo.com", "hotmail.com", "outlook.com", "aol.com"]

/-- `e.split('@')[1]` (the text between the first two `@`s, or after the
only one). -/
def emailDomain (e : String) : Option String :=
  ((splitChar '@' e.data).map String.mk).get? 1

/-- `/^(info|contact|...)\@/i.test(e)`. -/
def roleLocal (e : String) : Bool :=
  roleLocals.any (fun w => List.isPrefixOf (w.data ++ ['@']) (lowerStr e).data)

/-- `/(gmail\.com|yahoo\.com|...)$/i.test(domain)`. -/
def freeMail (d : String) : Bool :=
  freeMailProviders.any (fun w => endsWithStr (lowerStr d) w)

def hasAtSign (e : String) : Bool := (emailDomain e).isSome

/-- The per-candidate score, kept in integer tenths of the JS value so
that the comparator is exact integer comparison (kernel-computable):
`+500 = 10·50`, `+400 = 10·40`, `+80 = 10·8`, `-200 = 10·(-20)`, and
`-1 = 10·(-0.1)` per character beyond the 24th.  `score10_eq_spec`
below proves this is ten times the rational score of the source
formula, so the induced ordering is identical.  The `none` branch is
unreachable whenever the comparator runs without throwing. -/
def score10 (host : String) (e : String) : ℤ :=
  match emailDomain e with
  | none => 0
  | some d =>
    (if d = host then (500 : ℤ) else 0)
    + (if endsWithStr d ("." ++ host) then 400 else 0)
    + (if roleLocal e then 80 else 0)
    - (if freeMail d then 200 else 0)
    - ((e.length - 24 : ℕ) : ℤ)

/-- The score exactly as written in the source
(`+50`, `+40`, `+8`, `-20`, `-0.1` per character beyond the 24th),
over `ℚ`. -/
def scoreSpec (host : String) (e : String) : ℚ :=
  match emailDomain e with
  | none => 0
  | some d =>
    (if d = host then (50 : ℚ) else 0)
    + (if endsWithStr d ("." ++ host) then 40 else 0)
    + (if roleLocal e then 8 else 0)
    - (if freeMail d then 20 else 0)
    - ((e.length - 24 : ℕ) : ℚ) / 10

/-- Head of the stable descending sort
`[...candidates].sort((a, b) => score(b) - score(a))[0]`: the first
element attaining the maximal score (JS `Array.prototype.sort` is
stable, so ties keep first-seen order). -/
def pickFirstMax (f : String → ℤ) : String → List String → String
  | e, [] => e
  | e, x :: r => if f e < f x then pickFirstMax f x r else pickFirstMax f e r

/-- `bestEmailForDomain(candidates, siteHost)` from src/enrich.js. -/
def bestEmailForDomain (cands : List String) (siteHost : String) :
    Except Unit (Option String) :=
  match cands with
  | [] => .ok none
  | c :: cs =>
    if 2 ≤ (c :: cs).length ∧ (c :: cs).any (fun e => !hasAtSign e) then .error ()
    else .ok (some (pickFirstMax (score10 (lowerStr siteHost)) c cs))

/-! ## Email extraction (src/enrich.js)

The JS regex scanners are embedded as executable fuelled scanners over
character lists.  Each scanner advances one position at a time, attempts
a match at the current position (with the same greedy-then-backtrack
choice order as the regex engine), and on success continues after the
match, mirroring a global `exec` loop.  JS `\s` is modelled by the four
common ASCII whitespace characters. -/

def isDigitChar (c : Char) : Bool := 48 ≤ c.toNat && c.toNat ≤ 57

/-- `[A-Z0-9._%+-]` (with `/i`). -/
def isLocalChar (c : Char) : Bool :=
  isAlphaChar c || isDigitChar c || c = '.' || c = '_' || c = '%' || c = '+' || c = '-'

/-- `[A-Z0-9.-]` (with `/i`). -/
def isDomChar (c : Char) : Bool :=
  isAlphaChar c || isDigitChar c || c = '.' || c = '-'

def isWsChar (c : Char) : Bool := c = ' ' || c = '\t' || c = '\n' || c = '\r'

def skipWs (l : List Char) : List Char := l.dropWhile isWsChar

/-- Consume one optional bracket character. -/
def stripOpt (l : List Char) (opts : List Char) : List Char :=
  match l with
  | c :: r => if c ∈ opts then r else l
  | [] => []

/-- Case-insensitive literal match; returns the remainder. -/
def matchCI (pat l : List Char) : Option (List Char) :=
  if lowerL (l.take pat.length) = pat then some (l.drop pat.length) else none

/-- `[A-Z]{2,24}` with `/i`: greedily take up to 24 letters, needing at
least 2. -/
def tryTld (l : List Char) : Option (List Char × List Char) :=
  let t := (l.takeWhile isAlphaChar).take 24
  if 2 ≤ t.length then some (t, l.drop t.length) else none

/-- Backtracking split of the greedy domain-character run
(`[a-z0-9.-]+\.[a-z]{2,24}`): try the longest domain prefix first, and
require a literal `.` followed by a 2..24-letter TLD; the match may end
before the run does. -/
def domSplitGo (dRun : List Char) : Nat → Option (List Char × List Char)
  | 0 => none
  | k + 1 =>
    match dRun.drop (k + 1) with
    | '.' :: tail =>
      match tryTld tail with
      | some (t, _) => some (dRun.take (k + 1), t)
      | none => domSplitGo dRun k
    | _ => domSplitGo dRun k

def domSplitFull (dRun : List Char) : Option (List Char × List Char) :=
  domSplitGo dRun dRun.length

/-- Match `/([a-z0-9._%+-]+@[a-z0-9.-]+\.[a-z]{2,24})/i` at the current
position; returns the match and the remainder after it. -/
def matchEmailAt (l : List Char) : Option (List Char × List Char) :=
  let loc := l.takeWhile isLocalChar
  if loc = [] then none
  else
    match l.dropWhile isLocalChar with
    | '@' :: rest =>
      let dRun := rest.takeWhile isDomChar
      match domSplitFull dRun with
      | some (d, t) =>
        some (loc ++ '@' :: (d ++ '.' :: t),
              rest.drop (d.length + 1 + t.length))
      | none => none
    | _ => none

def scanEmailsAux : Nat → List Char → List (List Char)
  | 0, _ => []
  | _, [] => []
  | fuel + 1, l =>
    match matchEmailAt l with
    | some (m, after) => m :: scanEmailsAux fuel after
    | none => scanEmailsAux fuel l.tail

/-- `extractEmails` from src/enrich.js: all matches of the email regex,
deduplicated in first-seen order (a JS `Set`). -/
def extractEmails (s : String) : List String :=
  dedupeFirst ((scanEmailsAux s.data.length s.data).map String.mk)

/-! ### Cloudflare `data-cfemail` decoding -/

def hexVal (c : Char) : Option Nat :=
  if 48 ≤ c.toNat ∧ c.toNat ≤ 57 then some (c.toNat - 48)
  else if 97 ≤ c.toNat ∧ c.toNat ≤ 102 then some (c.toNat - 87)
  else if 65 ≤ c.toNat ∧ c.toNat ≤ 70 then some (c.toNat - 55)
  else none

def isHexChar (c : Char) : Bool := (hexVal c).isSome

/-- XOR-decode the hex pairs against the key (`substr(n, 2)` takes a
single character at an odd tail). -/
def decodeCfAux (r : Nat) : List Char → List Char
  | [] => []
  | [a] => [Char.ofNat (((hexVal a).getD 0) ^^^ r % 256)]
  | a :: b :: rest =>
    Char.ofNat ((((hexVal a).getD 0) * 16 + ((hexVal b).getD 0)) ^^^ r) ::
      decodeCfAux r rest

/-- `decodeCfEmail`: the first byte is the XOR key; a 0- or 1-digit
input decodes to the empty string, which the caller drops as falsy. -/
def decodeCfEmail : List Char → String
  | [] => ""
  | [_] => ""
  | a :: b :: rest =>
    String.mk (decodeCfAux (((hexVal a).getD 0) * 16 + ((hexVal b).getD 0)) rest)

/-- Match `data-cfemail=["']([0-9a-fA-F]+)["']` at the current position. -/
def matchCfAt (l : List Char) : Option (List Char × List Char) :=
  if List.isPrefixOf "data-cfemail=".data l then
    match l.drop 13 with
    | q :: rest =>
      if q = '"' ∨ q = '\'' then
        let h := rest.takeWhile isHexChar
        if h = [] then none
        else
          match rest.drop h.length with
          | q2 :: rest2 => if q2 = '"' ∨ q2 = '\'' then some (h, rest2) else none
          | [] => none
      else none
    | [] => none
  else none

def scanCfAux : Nat → List Char → List (List Char)
  | 0, _ => []
  | _, [] => []
  | fuel + 1, l =>
    match matchCfAt l with
    | some (h, after) => h :: scanCfAux fuel after
    | none => scanCfAux fuel l.tail

/-- `emailsFromCloudflare` from src/enrich.js: decode every
`data-cfemail` attribute, dropping falsy (empty) decodes. -/
def emailsFromCloudflare (s : String) : List String :=
  dedupeFirst (((scanCfAux s.data.length s.data).map decodeCfEmail).filter (fun e => e ≠ ""))

/-! ### Obfuscated forms (`name [at] domain [dot] tld` and
`name (@) domain . tld`) -/

/-- `\s*(?:\(|\[)?\s*dot\s*(?:\)|\])?\s*([A-Z]{2,24})` -/
def tryDotWord (cont : List Char) : Option (List Char × List Char) :=
  match matchCI "dot".data (skipWs (stripOpt (skipWs cont) ['(', '['])) with
  | none => none
  | some c4 => tryTld (skipWs (stripOpt (skipWs c4) [')', ']']))

/-- `\s*\.\s*([A-Z]{2,24})` -/
def tryDotLit (cont : List Char) : Option (List Char × List Char) :=
  match skipWs cont with
  | '.' :: c2 => tryTld (skipWs c2)
  | _ => none

/-- Backtrack the greedy domain run from the longest prefix down,
requiring the continuation `dot` parser to succeed on the leftover. -/
def domBack (dot : List Char → Option (List Char × List Char))
    (dRun rest : List Char) : Nat → Option (List Char × List Char × List Char)
  | 0 => none
  | k + 1 =>
    match dot (dRun.drop (k + 1) ++ rest) with
    | some (t, after) => some (dRun.take (k + 1), t, after)
    | none => domBack dot dRun rest k

/-- Continuation of obfuscation pattern 1 after the local part:
`\s*(?:\(|\[)?\s*at\s*(?:\)|\])?\s*([A-Z0-9.-]+)` then the `dot`
part. -/
def p1AfterLocal (cont : List Char) : Option (List Char × List Char × List Char) :=
  match matchCI "at".data (skipWs (stripOpt (skipWs cont) ['(', '['])) with
  | none => none
  | some c4 =>
    let c7 := skipWs (stripOpt (skipWs c4) [')', ']'])
    let dRun := c7.takeWhile isDomChar
    if dRun = [] then none
    else domBack tryDotWord dRun (c7.drop dRun.length) dRun.length

/-- Backtrack the greedy local-part run (letters of `at` may be part of
the same character run). -/
def p1Local (run rest : List Char) :
    Nat → Option (List Char × List Char × List Char × List Char)
  | 0 => none
  | k + 1 =>
    match p1AfterLocal (run.drop (k + 1) ++ rest) with
    | some (d, t, after) => some (run.take (k + 1), d, t, after)
    | none => p1Local run rest k

def matchP1At (l : List Char) : Option (List Char × List Char) :=
  let run := l.takeWhile isLocalChar
  if run = [] then none
  else
    match p1Local run (l.drop run.length) run.length with
    | some (loc, d, t, after) => some (loc ++ '@' :: (d ++ '.' :: t), after)
    | none => none

/-- Pattern 2 at the current position:
`([A-Z0-9._%+-]+)\s*\(?\s*@\s*\)?\s*([A-Z0-9.-]+)\s*\.\s*([A-Z]{2,24})`.
No local-part backtracking is needed: a shorter local prefix is always
followed by a local character, never by `@`, `(` or whitespace. -/
def matchP2At (l : List Char) : Option (List Char × List Char) :=
  let run := l.takeWhile isLocalChar
  if run = [] then none
  else
    match skipWs (stripOpt (skipWs (l.drop run.length)) ['(']) with
    | '@' :: c4 =>
      let c7 := skipWs (stripOpt (skipWs c4) [')'])
      let dRun := c7.takeWhile isDomChar
      if dRun = [] then none
      else
        match domBack tryDotLit dRun (c7.drop dRun.length) dRun.length with
        | some (d, t, after) => some (run ++ '@' :: (d ++ '.' :: t), after)
        | none => none
    | _ => none

def scanPatAux (pat : List Char → Option (List Char × List Char)) :
    Nat → List Char → List (List Char)
  | 0, _ => []
  | _, [] => []
  | fuel + 1, l =>
    match pat l with
    | some (m, after) => m :: scanPatAux pat fuel after
    | none => scanPatAux pat fuel l.tail

/-- `extractObfuscated` from src/enrich.js: strip zero-width characters,
collect both obfuscation patterns into a `Set`, lowercase the results. -/
def extractObfuscated (s : String) : List String :=
  let cleaned := s.data.filter
    (fun c => ¬ (c.toNat = 0x200B ∨ c.toNat = 0x200C ∨ c.toNat = 0x200D))
  (dedupeFirst
    ((scanPatAux matchP1At cleaned.length cleaned
        ++ scanPatAux matchP2At cleaned.length cleaned).map String.mk)).map lowerStr

/-! ### JSON-LD extraction

`emailsFromJsonLd` finds `<script type="application/ld+json">` blocks,
parses them as JSON and runs `extractEmails` over every string value in
the parsed tree (the JS walk pushes array elements and object values;
the dedicated `v.email` case adds the same strings again into the same
`Set`).  JSON parsing is embedded as a fuelled recursive-descent parser
for the JSON.parse grammar; a malformed block contributes nothing. -/

inductive JVal where
  | jnull : JVal
  | jbool : Bool → JVal
  | jnum : JVal
  | jstr : String → JVal
  | jarr : List JVal → JVal
  | jobj : List (String × JVal) → JVal
deriving Repr

def jsonWs (l : List Char) : List Char :=
  l.dropWhile (fun c => c = ' ' || c = '\t' || c = '\n' || c = '\r')

/-- Decode one JSON string escape; `\uXXXX` outside the scalar range
maps to U+FFFD (JS strings allow lone surrogates, Lean strings do not —
irrelevant to every property proved here). -/
def jsonEscape : List Char → Option (Char × List Char)
  | '"' :: r => some ('"', r)
  | '\\' :: r => some ('\\', r)
  | '/' :: r => some ('/', r)
  | 'b' :: r => some ('\x08', r)
  | 'f' :: r => some ('\x0c', r)
  | 'n' :: r => some ('\n', r)
  | 'r' :: r => some ('\r', r)
  | 't' :: r => some ('\t', r)
  | 'u' :: a :: b :: c :: d :: r =>
    match hexVal a, hexVal b, hexVal c, hexVal d with
    | some x, some y, some z, some w =>
      let n := ((x * 16 + y) * 16 + z) * 16 + w
      some (if n < 0xd800 ∨ 0xe000 ≤ n then Char.ofNat n else '�', r)
    | _, _, _, _ => none
  | _ => none

/-- Parse a JSON string body (after the opening quote). -/
def parseJStr : Nat → List Char → Option (List Char × List Char)
  | 0, _ => none
  | _, [] => none
  | fuel + 1, c :: r =>
    if c = '"' then some ([], r)
    else if c = '\\' then
      match jsonEscape r with
      | some (e, r2) =>
        match parseJStr fuel r2 with
        | some (cs, rest) => some (e :: cs, rest)
        | none => none
      | none => none
    else if c.toNat < 0x20 then none
    else
      match parseJStr fuel r with
      | some (cs, rest) => some (c :: cs, rest)
      | none => none

/-- Parse a JSON number (grammar check only; the value is not needed). -/
def parseJNum (l : List Char) : Option (List Char) :=
  let l1 := match l with
    | '-' :: r => r
    | _ => l
  match l1 with
  | '0' :: r =>
    some r
  | c :: _ =>
    if isDigitChar c then some (l1.dropWhile isDigitChar) else none
  | [] => none

def parseJFrac (l : List Char) : Option (List Char) :=
  match l with
  | '.' :: r =>
    if (r.takeWhile isDigitChar) = [] then none
    else some (r.dropWhile isDigitChar)
  | _ => some l

def parseJExp (l : List Char) : Option (List Char) :=
  match l with
  | c :: r =>
    if c = 'e' ∨ c = 'E' then
      let r1 := match r with
        | s :: r2 => if s = '+' ∨ s = '-' then r2 else r
        | [] => r
      if (r1.takeWhile isDigitChar) = [] then none
      else some (r1.dropWhile isDigitChar)
    else some l
  | [] => some l

def parseJNumber (l : List Char) : Option (List Char) :=
  match parseJNum l with
  | none => none
  | some r =>
    match parseJFrac r with
    | none => none
    | some r2 => parseJExp r2

mutual

def parseJVal : Nat → List Char → Option (JVal × List Char)
  | 0, _ => none
  | fuel + 1, l =>
    match jsonWs l with
    | '"' :: r =>
      match parseJStr (fuel + 1) r with
      | some (cs, rest) => some (.jstr (String.mk cs), rest)
      | none => none
    | '{' :: r => parseJObj fuel r
    | '[' :: r => parseJArr fuel r
    | 't' :: r =>
      match matchCI "rue".data r with
      | some rest => some (.jbool true, rest)
      | none => none
    | 'f' :: r =>
      match matchCI "alse".data r with
      | some rest => some (.jbool false, rest)
      | none => none
    | 'n' :: r =>
      match matchCI "ull".data r with
      | some rest => some (.jnull, rest)
      | none => none
    | l2 =>
      match parseJNumber l2 with
      | some rest => some (.jnum, rest)
      | none => none

def parseJArr : Nat → List Char → Option (JVal × List Char)
  | 0, _ => none
  | fuel + 1, l =>
    match jsonWs l with
    | ']' :: r => some (.jarr [], r)
    | l2 =>
      match parseJVal fuel l2 with
      | some (v, rest) =>
        match parseJArrTail fuel rest with
        | some (vs, rest2) => some (.jarr (v :: vs), rest2)
        | none => none
      | none => none

def parseJArrTail : Nat → List Char → Option (List JVal × List Char)
  | 0, _ => none
  | fuel + 1, l =>
    match jsonWs l with
    | ']' :: r => some ([], r)
    | ',' :: r =>
      match parseJVal fuel r with
      | some (v, rest) =>
        match parseJArrTail fuel rest with
        | some (vs, rest2) => some (v :: vs, rest2)
        | none => none
      | none => none
    | _ => none

def parseJObj : Nat → List Char → Option (JVal × List Char)
  | 0, _ => none
  | fuel + 1, l =>
    match jsonWs l with
    | '}' :: r => some (.jobj [], r)
    | l2 =>
      match parseJMember fuel l2 with
      | some (kv, rest) =>
        match parseJObjTail fuel rest with
        | some (kvs, rest2) => some (.jobj (kv :: kvs), rest2)
        | none => none
      | none => none

def parseJObjTail : Nat → List Char → Option (List (String × JVal) × List Char)
  | 0, _ => none
  | fuel + 1, l =>
    match jsonWs l with
    | '}' :: r => some ([], r)
    | ',' :: r =>
      match parseJMember fuel r with
      | some (kv, rest) =>
        match parseJObjTail fuel rest with
        | some (kvs, rest2) => some (kv :: kvs, rest2)
        | none => none
      | none => none
    | _ => none

def parseJMember : Nat → List Char → Option ((String × JVal) × List Char)
  | 0, _ => none
  | fuel + 1, l =>
    match jsonWs l with
    | '"' :: r =>
      match parseJStr (fuel + 1) r with
      | some (cs, rest) =>
        match jsonWs rest with
        | ':' :: rest2 =>
          match parseJVal fuel rest2 with
          | some (v, rest3) => some ((String.mk cs, v), rest3)
          | none => none
        | _ => none
      | none => none
    | _ => none

end

/-- `JSON.parse`: the whole input must be one value plus whitespace. -/
def parseJson (l : List Char) : Option JVal :=
  match parseJVal (l.length + 1) l with
  | some (v, rest) => if jsonWs rest = [] then some v else none
  | none => none

mutual

def jsonStrings : JVal → List String
  | .jstr s => [s]
  | .jarr xs => jsonStringsList xs
  | .jobj kvs => jsonStringsObj kvs
  | _ => []

def jsonStringsList : List JVal → List String
  | [] => []
  | v :: vs => jsonStrings v ++ jsonStringsList vs

def jsonStringsObj : List (String × JVal) → List String
  | [] => []
  | (_, v) :: kvs => jsonStrings v ++ jsonStringsObj kvs

end

/-! ### Tag-level scanners -/

/-- Fuelled case-insensitive search for `pat`; returns the remainder
after the first occurrence. -/
def findCIAfter (pat : List Char) : Nat → List Char → Option (List Char)
  | 0, _ => none
  | _, [] => if pat = [] then some [] else none
  | fuel + 1, l =>
    match matchCI pat l with
    | some rest => some rest
    | none => findCIAfter pat fuel l.tail

/-- Like `findCIAfter` but also returns the text before the occurrence. -/
def findCISplit (pat : List Char) : Nat → List Char → Option (List Char × List Char)
  | 0, _ => none
  | _, [] => if pat = [] then some ([], []) else none
  | fuel + 1, l =>
    match matchCI pat l with
    | some rest => some ([], rest)
    | none =>
      match l with
      | [] => none
      | c :: r =>
        match findCISplit pat fuel r with
        | some (pre, rest) => some (c :: pre, rest)
        | none => none

def isWordChar (c : Char) : Bool := isAlphaChar c || isDigitChar c || c = '_'

/-- Extract the first `href\s*=\s*["']([^"']+)["']` inside the tag body
(the characters of `[^>]*?` before it). -/
def hrefInTag (tag : List Char) : Option (List Char) :=
  match findCIAfter "href".data tag.length tag with
  | none => none
  | some r =>
    match skipWs r with
    | '=' :: r2 =>
      match skipWs r2 with
      | q :: r3 =>
        if q = '"' ∨ q = '\'' then
          let v := r3.takeWhile (fun c => c ≠ '"' ∧ c ≠ '\'')
          if v = [] then none
          else
            match r3.drop v.length with
            | q2 :: _ => if q2 = '"' ∨ q2 = '\'' then some v else none
            | [] => none
        else none
      | [] => none
    | _ => none

/-- Match `<a\b[^>]*?href\s*=\s*["']([^"']+)["']` at this position. -/
def matchAnchorHrefAt (l : List Char) : Option (List Char × List Char) :=
  match matchCI "<a".data l with
  | none => none
  | some r =>
    match r with
    | c :: _ =>
      if isWordChar c then none
      else
        let tag := r.takeWhile (fun c => c ≠ '>')
        match hrefInTag tag with
        | some v => some (v, r.drop tag.length)
        | none => none
    | [] => none

def scanHrefsAux : Nat → List Char → List (List Char)
  | 0, _ => []
  | _, [] => []
  | fuel + 1, l =>
    match matchAnchorHrefAt l with
    | some (v, after) => v :: scanHrefsAux fuel after
    | none => scanHrefsAux fuel l.tail

def scanHrefs (s : String) : List (List Char) := scanHrefsAux s.data.length s.data

/-- Match `<a\b[^>]*?href\s*=\s*["']([^"']+)["'][^>]*>(.*?)<\/a>`:
additionally consume through the tag close and capture the anchor text
up to the first `</a>`. -/
def matchAnchorPairAt (l : List Char) : Option (List Char × List Char × List Char) :=
  match matchAnchorHrefAt l with
  | none => none
  | some (v, afterTag) =>
    match afterTag with
    | '>' :: body =>
      match findCISplit "</a>".data body.length body with
      | some (text, rest) => some (v, text, rest)
      | none => none
    | _ => none

def scanAnchorPairsAux : Nat → List Char → List (List Char × List Char)
  | 0, _ => []
  | _, [] => []
  | fuel + 1, l =>
    match matchAnchorPairAt l with
    | some (v, text, after) => (v, text) :: scanAnchorPairsAux fuel after
    | none => scanAnchorPairsAux fuel l.tail

def scanAnchorPairs (s : String) : List (List Char × List Char) :=
  scanAnchorPairsAux s.data.length s.data

/-- Match one `<script ...type=["']application/ld+json["']...>body</script>`
block at this position; returns the body and the remainder. -/
def matchLdBlockAt (l : List Char) : Option (List Char × List Char) :=
  match matchCI "<script".data l with
  | none => none
  | some r =>
    let tag := r.takeWhile (fun c => c ≠ '>')
    if tag = [] then none
    else
      match findCIAfter "type=".data tag.length tag with
      | none => none
      | some tr =>
        match tr with
        | q :: tr2 =>
          if (q = '"' ∨ q = '\'') ∧ (matchCI "application/ld+json".data tr2).isSome then
            match r.drop tag.length with
            | '>' :: body =>
              match findCISplit "</script>".data body.length body with
              | some (code, rest) => some (code, rest)
              | none => none
            | _ => none
          else none
        | [] => none

def scanLdBlocksAux : Nat → List Char → List (List Char)
  | 0, _ => []
  | _, [] => []
  | fuel + 1, l =>
    match matchLdBlockAt l with
    | some (body, after) => body :: scanLdBlocksAux fuel after
    | none => scanLdBlocksAux fuel l.tail

/-- `emailsFromJsonLd` from src/enrich.js. -/
def emailsFromJsonLd (s : String) : List String :=
  dedupeFirst
    ((scanLdBlocksAux s.data.length s.data).flatMap (fun body =>
      match parseJson body with
      | some v => (jsonStrings v).flatMap extractEmails
      | none => []))

/-- `<loc>([^<]+)<\/loc>` matches in a sitemap file. -/
def matchLocAt (l : List Char) : Option (List Char × List Char) :=
  match matchCI "<loc>".data l with
  | none => none
  | some r =>
    let v := r.takeWhile (fun c => c ≠ '<')
    if v = [] then none
    else
      match matchCI "</loc>".data (r.drop v.length) with
      | some rest => some (v, rest)
      | none => none

def scanLocsAux : Nat → List Char → List (List Char)
  | 0, _ => []
  | _, [] => []
  | fuel + 1, l =>
    match matchLocAt l with
    | some (v, after) => v :: scanLocsAux fuel after
    | none => scanLocsAux fuel l.tail

/-- `extractUrlsFromSitemap` from src/enrich.js. -/
def extractUrlsFromSitemap (s : String) : List String :=
  dedupeFirst ((scanLocsAux s.data.length s.data).map String.mk)

/-! ## Bounded fetcher and crawl state (src/enrich.js)

The network is an oracle mapping a request URL to either a response or
a failure (`Except.error` models a rejected fetch: network error, abort
by the timeout).  `fetchWithTimeout` reads the entire body returned by
the oracle — the source has no body-size cap.  The crawl state threads
the `seen` email set, the `visited` URL set and the ordered trace of
every fetch attempt. -/

structure NetResponse where
  ok : Bool
  status : Nat
  finalUrl : String
  body : String
  contentType : String

def Oracle := String → Except Unit NetResponse

structure FetchResult where
  ok : Bool
  status : Nat
  url : String
  html : String
  contentType : String

/-- `fetchWithTimeout` from src/enrich.js: forward the request and
package `{ok, status, url, html: await r.text(), contentType}`; the
whole body is read, whatever its size. -/
def fetchWithTimeout (o : Oracle) (url : String) : Except Unit FetchResult :=
  match o url with
  | .error e => .error e
  | .ok r => .ok ⟨r.ok, r.status, r.finalUrl, r.body, r.contentType⟩

structure CrawlSt where
  seen : List String
  visited : List String
  trace : List String
deriving Repr

def emptyCrawl : CrawlSt := ⟨[], [], []⟩

def doFetch (o : Oracle) (st : CrawlSt) (u : String) :
    Except Unit FetchResult × CrawlSt :=
  (fetchWithTimeout o u, { st with trace := st.trace ++ [u] })

def addSeen (st : CrawlSt) (es : List String) : CrawlSt :=
  { st with seen := es.foldl addUnique st.seen }

def addVisited (st : CrawlSt) (u : String) : CrawlSt :=
  { st with visited := if u ∈ st.visited then st.visited else st.visited ++ [u] }

/-- `ENRICH_MAX_PAGES` default. -/
def MAX_PAGES : Nat := 12

/-- `ENRICH_SOCIALS` default (`'1'`). -/
def FETCH_SOCIALS : Bool := true

/-- Full extraction used on HTML pages (homepage, likely pages,
sitemap-listed pages). -/
def extractAll (html : String) : List String :=
  extractEmails html ++ emailsFromJsonLd html
    ++ extractObfuscated html ++ emailsFromCloudflare html

/-- Plain-text extraction used on documents and social pages. -/
def extractTxt (html : String) : List String :=
  extractEmails html ++ extractObfuscated html

/-! ## Link pickers (src/enrich.js) -/

def likelyHrefWords : List String :=
  ["contact", "about", "team", "staff", "support", "help", "privacy",
   "legal", "impressum", "terms", "policy", "connect", "location"]

def likelyTextWords : List String :=
  ["contact", "about", "team", "staff", "support", "help", "privacy",
   "legal", "impressum", "terms", "policy"]

def containsCI (l : List Char) (w : String) : Bool :=
  containsSub (lowerL l) w.data

/-- `pickLikelyPages(baseUrl, html)`: anchors whose href or text
contains a contact-like keyword, resolved, first 8. -/
def pickLikelyPages (baseUrl : String) (html : String) : List String :=
  (dedupeFirst
    ((scanAnchorPairs html).filterMap (fun p =>
      match absoluteUrl baseUrl (String.mk p.1) with
      | none => none
      | some abs =>
        if likelyHrefWords.any (containsCI p.1) ∨ likelyTextWords.any (containsCI p.2)
        then some abs else none))).take 8

/-- `pickDocLinks(baseUrl, html)`: PDF/vCard or policy-named links,
first 6. -/
def pickDocLinks (baseUrl : String) (html : String) : List String :=
  (dedupeFirst
    ((scanHrefs html).filterMap (fun href =>
      if (["\x2epdf", ".vcf", ".vcard"].any (fun ext => endsWithL (lowerL href) ext.data))
          ∨ (["privacy", "terms", "impressum", "legal"].any (containsCI href)) then
        absoluteUrl baseUrl (String.mk href)
      else none))).take 6

def SOCIAL_DOMAINS : List String :=
  ["facebook.com", "m.facebook.com", "mbasic.facebook.com",
   "instagram.com", "x.com", "twitter.com", "linkedin.com"]

/-- `socialLinks(baseUrl, html)`: anchors whose resolved hostname ends
with a known social domain, first 6. -/
def socialLinks (baseUrl : String) (html : String) : List String :=
  (dedupeFirst
    ((scanHrefs html).filterMap (fun href =>
      match absoluteUrl baseUrl (String.mk href) with
      | none => none
      | some abs =>
        match parseAbs abs.data with
        | none => none
        | some u =>
          if SOCIAL_DOMAINS.any (fun d => endsWithL u.host d.data)
          then some abs else none))).take 6

/-! ## Facebook helpers (src/enrich.js) -/

/-- `toFacebookAbout(urlOrSlug)`: rewrite any facebook URL (or a bare
slug, when URL parsing throws) to the mbasic About view. -/
def toFacebookAbout (urlOrSlug : String) : Option String :=
  match parseAbs urlOrSlug.data with
  | some u =>
    if containsSub u.host "facebook.com".data then
      let slug := ((u.rest.dropWhile (fun c => c = '/')).takeWhile
        (fun c => c ≠ '/' ∧ c ≠ '?' ∧ c ≠ '#'))
      if slug = [] then none
      else some ("https://mbasic.facebook.com/" ++ String.mk slug ++ "/about")
    else none
  | none =>
    let slug := ((urlOrSlug.data.dropWhile (fun c => c = '/')).takeWhile
      (fun c => c ≠ '/' ∧ c ≠ '?' ∧ c ≠ '#'))
    if slug = [] then none
    else some ("https://mbasic.facebook.com/" ++ String.mk slug ++ "/about")

/-- `emailsFromFacebook(urlOrSlug)`: fetch the About page, extract;
any failure yields no candidates.  Returns the fetch trace too. -/
def emailsFromFacebook (o : Oracle) (urlOrSlug : String) :
    List String × List String :=
  match toFacebookAbout urlOrSlug with
  | none => ([], [])
  | some aboutUrl =>
    match fetchWithTimeout o aboutUrl with
    | .error _ => ([], [aboutUrl])
    | .ok r =>
      if r.ok then (uniqLower (extractEmails r.html ++ extractObfuscated r.html), [aboutUrl])
      else ([], [aboutUrl])

def utf8Bytes (n : Nat) : List Nat :=
  if n < 0x80 then [n]
  else if n < 0x800 then [0xC0 + n / 64, 0x80 + n % 64]
  else if n < 0x10000 then [0xE0 + n / 4096, 0x80 + (n / 64) % 64, 0x80 + n % 64]
  else [0xF0 + n / 262144, 0x80 + (n / 4096) % 64, 0x80 + (n / 64) % 64, 0x80 + n % 64]

def hexDigitUpper (n : Nat) : Char :=
  if n < 10 then Char.ofNat (48 + n) else Char.ofNat (55 + n)

def isUriUnreserved (c : Char) : Bool :=
  isAlphaChar c || isDigitChar c || c = '-' || c = '_' || c = '.'
    || c = '!' || c = '~' || c = '*' || c = '\'' || c = '(' || c = ')'

/-- `encodeURIComponent` (UTF-8 percent-encoding). -/
def encodeURIComponent (s : String) : String :=
  String.mk (s.data.flatMap (fun c =>
    if isUriUnreserved c then [c]
    else (utf8Bytes c.toNat).flatMap (fun b =>
      ['%', hexDigitUpper (b / 16), hexDigitUpper (b % 16)])))

def jsTrim (s : String) : String :=
  String.mk (((s.data.dropWhile isWsChar).reverse.dropWhile isWsChar).reverse)

def slugChar (c : Char) : Bool :=
  isAlphaChar c || isDigitChar c || c = '.' || c = '_' || c = '-'

/-- One match of
`href="\/([A-Za-z0-9._-]{3,})\/(?!photos|videos|posts)[^"]*"`. -/
def matchSlugAt (l : List Char) : Option (List Char × List Char) :=
  match matchCI "href=\"/".data l with
  | none => none
  | some r =>
    let slug := r.takeWhile slugChar
    if slug.length < 3 then none
    else
      match r.drop slug.length with
      | '/' :: r2 =>
        if (matchCI "photos".data r2).isSome ∨ (matchCI "videos".data r2).isSome
            ∨ (matchCI "posts".data r2).isSome then none
        else
          let body := r2.takeWhile (fun c => c ≠ '"')
          match r2.drop body.length with
          | '"' :: rest => some (slug, rest)
          | _ => none
      | _ => none

def scanSlugsAux : Nat → List Char → List (List Char)
  | 0, _ => []
  | _, [] => []
  | fuel + 1, l =>
    match matchSlugAt l with
    | some (v, after) => v :: scanSlugsAux fuel after
    | none => scanSlugsAux fuel l.tail

/-- `facebookSearchSlugs(query)`: search mbasic Facebook and take the
first 3 page slugs from the results.  Returns the fetch trace too. -/
def facebookSearchSlugs (o : Oracle) (query : String) :
    List String × List String :=
  let url := "https://mbasic.facebook.com/search/?search="
    ++ encodeURIComponent (jsTrim query)
  match fetchWithTimeout o url with
  | .error _ => ([], [url])
  | .ok r =>
    if r.ok then
      ((dedupeFirst ((scanSlugsAux r.html.data.length r.html.data).map String.mk)).take 3,
       [url])
    else ([], [url])

/-! ## Well-known files and sitemaps (src/enrich.js) -/

def wellKnownLoop (o : Oracle) (st : CrawlSt) :
    List String → String → List String × CrawlSt
  | [], _ => ([], st)
  | p :: rest, base =>
    match absoluteUrl base p with
    | none => wellKnownLoop o st rest base
    | some u =>
      match doFetch o st u with
      | (.error _, st') => wellKnownLoop o st' rest base
      | (.ok r, st') =>
        if r.ok then
          let emails := extractEmails r.html ++ extractObfuscated r.html
          if emails ≠ [] then (emails, st')
          else wellKnownLoop o st' rest base
        else wellKnownLoop o st' rest base

/-- `tryWellKnown(base)`: `/.well-known/security.txt` then
`/humans.txt`; the first file that responds ok with a non-empty
extraction wins. -/
def tryWellKnown (o : Oracle) (base : String) (st : CrawlSt) :
    List String × CrawlSt :=
  wellKnownLoop o st ["/.well-known/security.txt", "/humans.txt"] base

/-- Extract the `Sitemap:` directives of a robots.txt
(`/^\s*Sitemap:\s*(\S+)/gim`, then `split(/\s+/).pop()`). -/
def robotsSitemaps (body : String) : List String :=
  (splitChar '\n' body.data).filterMap (fun line =>
    let l1 := line.dropWhile isWsChar
    match matchCI "sitemap:".data l1 with
    | none => none
    | some r =>
      let tok := (r.dropWhile isWsChar).takeWhile (fun c => !isWsChar c)
      if tok = [] then none else some (String.mk tok))

def discoverLoop (o : Oracle) (st : CrawlSt) :
    List (Option String) → List String → List String × CrawlSt
  | [], acc => (acc, st)
  | none :: rest, acc => discoverLoop o st rest acc
  | some u :: rest, acc =>
    match doFetch o st u with
    | (.error _, st') => discoverLoop o st' rest acc
    | (.ok r, st') =>
      if r.ok then
        if containsCI r.url.data "robots.txt" then
          discoverLoop o st' rest ((robotsSitemaps r.html).foldl addUnique acc)
        else
          discoverLoop o st' rest (addUnique acc r.url)
      else discoverLoop o st' rest acc

/-- `discoverSitemaps(baseUrl)`: robots.txt directives, else the fetched
default `/sitemap.xml` (final URL). -/
def discoverSitemaps (o : Oracle) (baseUrl : String) (st : CrawlSt) :
    List String × CrawlSt :=
  discoverLoop o st
    [absoluteUrl baseUrl "/robots.txt", absoluteUrl baseUrl "/sitemap.xml"] []

/-- The inner sitemap-page loop: per listed URL, skip if already
visited, break once the post-increment counter guard
`fetched++ > MAX_PAGES` fires, otherwise fetch and extract.  `fv` is
the JS `fetched` variable, `att` counts actual page-fetch attempts. -/
def siteUrlsLoop (o : Oracle) :
    List String → CrawlSt → Nat → Nat → CrawlSt × Nat × Nat
  | [], st, fv, att => (st, fv, att)
  | u :: rest, st, fv, att =>
    if u ∈ st.visited then siteUrlsLoop o rest st fv att
    else if fv > MAX_PAGES then (st, fv + 1, att)
    else
      match doFetch o st u with
      | (.error _, st') => siteUrlsLoop o rest st' (fv + 1) (att + 1)
      | (.ok r, st') =>
        if r.ok then
          let st2 := addSeen (addVisited st' r.url) (extractAll r.html)
          if st2.seen ≠ [] then (st2, fv + 1, att + 1)
          else siteUrlsLoop o rest st2 (fv + 1) (att + 1)
        else siteUrlsLoop o rest st' (fv + 1) (att + 1)

/-- The outer sitemap-file loop: stop when the page counter is
exhausted; a throwing sitemap-file fetch aborts the whole pass (only
the pass as a whole is wrapped in try/catch); 25 URLs are sampled per
sitemap file. -/
def siteMapsLoop (o : Oracle) :
    List String → CrawlSt → Nat → Nat → CrawlSt × Nat × Nat
  | [], st, fv, att => (st, fv, att)
  | m :: rest, st, fv, att =>
    if fv > MAX_PAGES then (st, fv, att)
    else
      match doFetch o st m with
      | (.error _, st') => (st', fv, att)
      | (.ok sm, st') =>
        if sm.ok then
          let urls := (extractUrlsFromSitemap sm.html).take 25
          match siteUrlsLoop o urls st' fv att with
          | (st2, fv2, att2) =>
            if st2.seen ≠ [] then (st2, fv2, att2)
            else siteMapsLoop o rest st2 fv2 att2
        else siteMapsLoop o rest st' fv att

def sitemapPhase (o : Oracle) (siteUrl : String) (st : CrawlSt) : CrawlSt :=
  match discoverSitemaps o siteUrl st with
  | (maps, st') => (siteMapsLoop o maps st' 0 0).1

/-! ## The site crawl and `findEmailOnSite` (src/enrich.js) -/

def likelyLoop (o : Oracle) : List String → CrawlSt → CrawlSt
  | [], st => st
  | u :: rest, st =>
    if st.visited.length > MAX_PAGES then st
    else
      match doFetch o st u with
      | (.error _, st') => likelyLoop o rest st'
      | (.ok r, st') =>
        if r.ok then
          let st2 := addSeen (addVisited st' r.url) (extractAll r.html)
          if st2.seen ≠ [] then st2 else likelyLoop o rest st2
        else likelyLoop o rest st'

def docsLoop (o : Oracle) : List String → CrawlSt → CrawlSt
  | [], st => st
  | u :: rest, st =>
    if st.visited.length > MAX_PAGES then st
    else
      match doFetch o st u with
      | (.error _, st') => docsLoop o rest st'
      | (.ok r, st') =>
        if r.ok then
          let st2 := addSeen (addVisited st' r.url) (extractTxt r.html)
          if st2.seen ≠ [] then st2 else docsLoop o rest st2
        else docsLoop o rest st'

def fbLinksLoop (o : Oracle) : List String → CrawlSt → CrawlSt
  | [], st => st
  | fb :: rest, st =>
    match emailsFromFacebook o fb with
    | (emails, tr) =>
      let st2 := addSeen { st with trace := st.trace ++ tr } emails
      if st2.seen ≠ [] then st2 else fbLinksLoop o rest st2

def socialFetchLoop (o : Oracle) : List String → CrawlSt → CrawlSt
  | [], st => st
  | u :: rest, st =>
    if st.visited.length > MAX_PAGES then st
    else
      match doFetch o st u with
      | (.error _, st') => socialFetchLoop o rest st'
      | (.ok r, st') =>
        if r.ok then
          let st2 := addSeen (addVisited st' r.url) (extractTxt r.html)
          if st2.seen ≠ [] then st2 else socialFetchLoop o rest st2
        else socialFetchLoop o rest st'

def fbSearchLoop (o : Oracle) : List String → CrawlSt → CrawlSt
  | [], st => st
  | slug :: rest, st =>
    match emailsFromFacebook o slug with
    | (emails, tr) =>
      let st2 := addSeen { st with trace := st.trace ++ tr } emails
      if st2.seen ≠ [] then st2 else fbSearchLoop o rest st2

structure Hints where
  name : Option String
  city : Option String
  state : Option String

def noHints : Hints := ⟨none, none, none⟩

def hintsQuery (h : Hints) : String :=
  String.intercalate " " (([h.name, h.city, h.state].filterMap id).filter (fun s => s ≠ ""))

/-- The homepage tier and its nested likely-pages / documents / socials
sub-tiers (all inside the homepage try/catch). -/
def homepagePhase (o : Oracle) (siteUrl : String) (st : CrawlSt) : CrawlSt :=
  match doFetch o st siteUrl with
  | (.error _, st') => st'
  | (.ok r, st') =>
    if r.ok then
      let st1 := addSeen (addVisited st' r.url) (extractAll r.html)
      let st2 := likelyLoop o (pickLikelyPages r.url r.html) st1
      let st3 := if st2.seen = [] then docsLoop o (pickDocLinks r.url r.html) st2 else st2
      if FETCH_SOCIALS ∧ st3.seen = [] then
        let socials := socialLinks r.url r.html
        let st4 := fbLinksLoop o (socials.filter (fun u => containsCI u.data "facebook.com")) st3
        if st4.seen = [] then socialFetchLoop o socials st4 else st4
      else st3
    else st'

/-- All crawl tiers of one `findEmailOnSite` call, producing the final
candidate set and fetch trace (a total function: every tier swallows
its own failures). -/
def crawlSite (o : Oracle) (siteUrl : String) (hints : Hints) : CrawlSt :=
  let st1 := homepagePhase o siteUrl emptyCrawl
  let st2 :=
    if st1.seen = [] then
      match tryWellKnown o siteUrl st1 with
      | (emails, st') => addSeen st' emails
    else st1
  let st3 := if st2.seen = [] then sitemapPhase o siteUrl st2 else st2
  if FETCH_SOCIALS ∧ st3.seen = [] ∧ (hints.name.getD "") ≠ "" then
    match facebookSearchSlugs o (hintsQuery hints) with
    | (slugs, tr) => fbSearchLoop o slugs { st3 with trace := st3.trace ++ tr }
  else st3

/-- JS truthiness of a string-or-null value (`'' || x` falls through). -/
def truthyStr : Option String → Bool
  | some s => s ≠ ""
  | none => false

def jsOrStr (a b : Option String) : Option String :=
  if truthyStr a then a else b

def Cache := List (String × Option String)

/-- The Facebook-name-search fallback of the no-website branch
(`if (emails.length) return emails[0]`). -/
def noSiteLoop (o : Oracle) : List String → List String → Option String × List String
  | [], tr => (none, tr)
  | slug :: rest, tr =>
    match emailsFromFacebook o slug with
    | (emails, tr2) =>
      match emails with
      | e :: _ => (some e, tr ++ tr2)
      | [] => noSiteLoop o rest (tr ++ tr2)

/-- The no-website branch: Facebook name search driven by the hints. -/
def findEmailNoSite (o : Oracle) (cache : Cache) (hints : Hints) :
    Except Unit (Option String) × Cache × List String :=
  if FETCH_SOCIALS ∧ (hints.name.getD "") ≠ "" then
    match facebookSearchSlugs o (hintsQuery hints) with
    | (slugs, tr) =>
      match noSiteLoop o slugs tr with
      | (res, tr2) => (.ok res, cache, tr2)
  else (.ok none, cache, [])

/-- The with-website branch after normalization: memoization check,
crawl, scoring, cache update.  An uncaught scorer throw leaves the
cache unchanged. -/
def findEmailResolved (o : Oracle) (cache : Cache) (siteUrl : String)
    (hints : Hints) : Except Unit (Option String) × Cache × List String :=
  match cache.lookup (hostOfUrl siteUrl) with
  | some v => (.ok v, cache, [])
  | none =>
    match bestEmailForDomain (uniqLower (crawlSite o siteUrl hints).seen) (hostOfUrl siteUrl) with
    | .error e => (.error e, cache, (crawlSite o siteUrl hints).trace)
    | .ok b =>
      (.ok (jsOrStr b (jsOrStr (uniqLower (crawlSite o siteUrl hints).seen).head? none)),
       (hostOfUrl siteUrl,
        jsOrStr (jsOrStr b (jsOrStr (uniqLower (crawlSite o siteUrl hints).seen).head? none)) none)
         :: cache,
       (crawlSite o siteUrl hints).trace)

/-- `findEmailOnSite(site, hints)` from src/enrich.js.  Returns the
result (`Except.error` when the call would throw), the updated
memoization cache (`sessionCache`) and the ordered fetch trace. -/
def findEmailOnSite (o : Oracle) (cache : Cache) (site : Option String)
    (hints : Hints) : Except Unit (Option String) × Cache × List String :=
  match normUrl site with
  | none => findEmailNoSite o cache hints
  | some siteUrl => findEmailResolved o cache siteUrl hints

/-! ## Concrete oracles used as counterexamples and witnesses -/

/-- A homepage containing a plain email and a malformed one-byte
`data-cfemail` span, whose decode (`"\x00"`) has no `@`. -/
def oracleC1 : Oracle := fun u =>
  if u = "https://b.co/" then
    .ok ⟨true, 200, "https://b.co/",
         "<p>contact a@b.co</p><i data-cfemail=\"0000\">x</i>", "text/html"⟩
  else .error ()

/-- A homepage with exactly one well-formed email. -/
def oracleC5 : Oracle := fun u =>
  if u = "https://d.co/" then
    .ok ⟨true, 200, "https://d.co/", "<p>c@d.co</p>", "text/html"⟩
  else .error ()

/-- A response body one character longer than the 1.5MB cap the spec
describes. -/
def bigBody : String := String.mk (List.replicate 1500001 'a')

def oracleC6 : Oracle := fun u =>
  if u = "https://x.co/" then .ok ⟨true, 200, "https://x.co/", bigBody, "text/html"⟩
  else .error ()

/-- 25 distinct page URLs for one sitemap file. -/
def pageUrl7 (i : Nat) : String := "https://s.co/" ++ String.mk (List.replicate (i + 1) 'p')

def sitemap7 : String :=
  String.join ((List.range 25).map (fun i => "<loc>" ++ pageUrl7 i ++ "</loc>"))

/-- One sitemap listing 25 pages; every page responds ok with no email
in sight, so the loop only stops at its counter guard. -/
def oracleC7 : Oracle := fun u =>
  if u = "https://s.co/sitemap.xml" then
    .ok ⟨true, 200, "https://s.co/sitemap.xml", sitemap7, "text/xml"⟩
  else .ok ⟨true, 200, u, "<p>hi</p>", "text/html"⟩

/-! ## City fanout (server.js `expandCity` / `/api/run` area setup) -/

def statesTable : List (String × List String) :=
  [("pennsylvania", ["Philadelphia", "Pittsburgh", "Allentown", "Erie", "Reading",
      "Scranton", "Harrisburg", "Lancaster", "Bethlehem", "York", "State College",
      "Wilkes-Barre"]),
   ("texas", ["Houston", "San Antonio", "Dallas", "Austin", "Fort Worth", "El Paso",
      "Arlington", "Plano", "Corpus Christi", "Lubbock"]),
   ("florida", ["Miami", "Orlando", "Tampa", "Jacksonville", "St. Petersburg",
      "Hialeah", "Fort Lauderdale", "Tallahassee", "Sarasota", "Boca Raton"]),
   ("california", ["Los Angeles", "San Diego", "San Jose", "San Francisco",
      "Sacramento", "Fresno", "Long Beach", "Oakland", "Bakersfield", "Riverside"]),
   ("new york", ["New York", "Buffalo", "Rochester", "Yonkers", "Syracuse", "Albany",
      "White Plains"]),
   ("illinois", ["Chicago", "Aurora", "Naperville", "Joliet", "Elgin", "Waukegan"])]

def metrosTable : List (String × List String) :=
  [("new york city", ["New York", "Manhattan", "Brooklyn", "Queens", "Bronx",
      "Staten Island", "Long Island", "Jersey City", "Hoboken", "Newark"]),
   ("los angeles", ["Los Angeles", "Santa Monica", "Beverly Hills", "Pasadena",
      "Burbank", "Glendale", "Long Beach"]),
   ("chicago", ["Chicago", "Evanston", "Oak Park", "Skokie", "Cicero"]),
   ("miami", ["Miami", "Miami Beach", "Coral Gables", "Hialeah", "Doral",
      "North Miami"]),
   ("dallas", ["Dallas", "Plano", "Richardson", "Irving", "Arlington", "Garland"]),
   ("houston", ["Houston", "Sugar Land", "Pearland", "Pasadena TX", "Spring",
      "The Woodlands"]),
   ("san francisco", ["San Francisco", "Oakland", "Berkeley", "Daly City",
      "San Mateo", "San Jose"]),
   ("seattle", ["Seattle", "Bellevue", "Redmond", "Kirkland", "Renton"]),
   ("boston", ["Boston", "Cambridge", "Somerville", "Brookline", "Quincy"]),
   ("atlanta", ["Atlanta", "Sandy Springs", "Decatur", "Marietta", "Smyrna"])]

/-- `expandCity(city)` from server.js: state fanout, metro fanout, or
the generic compass fanout. -/
def expandCity (city : String) : List String :=
  let c := jsTrim city
  if c = "" then []
  else
    match statesTable.lookup (lowerStr c) with
    | some v => v
    | none =>
      match metrosTable.lookup (lowerStr c) with
      | some v => v
      | none =>
        [c, "North " ++ c, "South " ++ c, "East " ++ c, "West " ++ c,
         c ++ " Downtown", c ++ " Suburbs"]

/-- The area setup of `/api/run`:
`(cityList.length ? cityList : ['United States']).flatMap(expandCity)`. -/
def runAreas (cityList : List String) : List String :=
  (if cityList.isEmpty then ["United States"] else cityList).flatMap expandCity

/-! ## The run orchestrator model (server.js `/api/run`, final version)

The job's per-business worker tasks are modelled as an interleaving
small-step system.  JS is single-threaded and cooperative: code between
two `await`s runs atomically, so each step below is one such atomic
segment of the worker closure in `/api/run`:

* task start — the guard `if (job.cancelled || job.stats.sent >= targetCap) return`
  plus `found++`, the website dedupe and `seenInRunSites.add` (no `await`
  in between);
* email-lookup completion — the result of `await findEmailOnSite`
  (given by the task's oracle data; `catch {}` maps a throw to `null`)
  plus the email dedupe, `seenInRunEmails.add` and `withEmail++`;
* send completion — the result of `await sendEmail` inside `trySend`
  plus `sent++`/`skipped++`, the result row, and (primary pass only)
  `SENT.add(ekey)`.

`runPool` runs at most `conc` workers, each owning one task from start
to finish, so at most `conc` tasks are in flight (here: past their
guard and not yet done); the model only requires a free slot when a
task starts, which over-approximates the real pool (a worker is also
busy during the post-send throttle sleep) and is therefore sound for
the safety bounds proved below.  The scheduler (task order, the cancel
flag) is left completely free.  The fallback pass exists only when
`RESEND_ON_SHORTFALL` is set, so fallback tasks can only start when
`resend` is true.  Template rendering and the debounced ledger save
are not modelled (no claim depends on them). -/

inductive Pass where
  | primary : Pass
  | fallback : Pass
deriving DecidableEq, Repr

/-- Static data of one per-business task: the business website, the
oracle result of its email lookup (`none` covers both "no email" and a
caught throw), and whether its send would succeed. -/
structure RTask where
  kind : Pass
  website : Option String
  email : Option String
  sendOk : Bool
deriving DecidableEq, Repr

inductive Phase where
  | pending : Phase
  | looking : Phase
  | sending : Phase
  | done : Phase
deriving DecidableEq, Repr

structure Row where
  email : String
  sentOk : Bool
deriving DecidableEq, Repr

structure RunCfg where
  cap : Nat
  conc : Nat
  ignorePrev : Bool
  resend : Bool

structure RunSt where
  tasks : List (RTask × Phase)
  cancelled : Bool
  sent : Nat
  found : Nat
  withEmail : Nat
  skipped : Nat
  ledger : List String
  seenEmails : List String
  seenSites : List String
  rows : List Row

def isInflight (tp : RTask × Phase) : Bool :=
  tp.2 = Phase.looking || tp.2 = Phase.sending

/-- Tasks past their guard and not yet finished. -/
def inflight (s : RunSt) : Nat := s.tasks.countP isInflight

/-- The dedupe skip condition of the primary pass:
`(!IGNORE_PREV && (SENT.has(ekey) || seenInRunEmails.has(ekey))) ||
 (IGNORE_PREV && seenInRunEmails.has(ekey))`. -/
def primaryDup (cfg : RunCfg) (s : RunSt) (k : String) : Prop :=
  (cfg.ignorePrev = false ∧ (k ∈ s.ledger ∨ k ∈ s.seenEmails)) ∨
  (cfg.ignorePrev = true ∧ k ∈ s.seenEmails)

inductive Step (cfg : RunCfg) : RunSt → RunSt → Prop where
  | cancel (s : RunSt) :
      Step cfg s { s with cancelled := true }
  | startGuardFail (s : RunSt) (l₁ l₂ : List (RTask × Phase)) (t : RTask)
      (htasks : s.tasks = l₁ ++ (t, Phase.pending) :: l₂)
      (hconc : inflight s < cfg.conc)
      (hrun : t.kind = Pass.fallback → cfg.resend = true)
      (hguard : s.cancelled = true ∨ cfg.cap ≤ s.sent) :
      Step cfg s { s with tasks := l₁ ++ (t, Phase.done) :: l₂ }
  | startSkipPrimary (s : RunSt) (l₁ l₂ : List (RTask × Phase)) (t : RTask)
      (htasks : s.tasks = l₁ ++ (t, Phase.pending) :: l₂)
      (hconc : inflight s < cfg.conc)
      (hkind : t.kind = Pass.primary)
      (hguard : s.cancelled = false ∧ s.sent < cfg.cap)
      (hskip : t.website = none ∨ lowerStr (t.website.getD "") ∈ s.seenSites) :
      Step cfg s { s with tasks := l₁ ++ (t, Phase.done) :: l₂,
                          found := s.found + 1, skipped := s.skipped + 1 }
  | startLookPrimary (s : RunSt) (l₁ l₂ : List (RTask × Phase)) (t : RTask) (w : String)
      (htasks : s.tasks = l₁ ++ (t, Phase.pending) :: l₂)
      (hconc : inflight s < cfg.conc)
      (hkind : t.kind = Pass.primary)
      (hguard : s.cancelled = false ∧ s.sent < cfg.cap)
      (hweb : t.website = some w)
      (hfresh : lowerStr w ∉ s.seenSites) :
      Step cfg s { s with tasks := l₁ ++ (t, Phase.looking) :: l₂,
                          found := s.found + 1,
                          seenSites := s.seenSites ++ [lowerStr w] }
  | startSkipFallback (s : RunSt) (l₁ l₂ : List (RTask × Phase)) (t : RTask)
      (htasks : s.tasks = l₁ ++ (t, Phase.pending) :: l₂)
      (hconc : inflight s < cfg.conc)
      (hkind : t.kind = Pass.fallback)
      (hrs : cfg.resend = true)
      (hguard : s.cancelled = false ∧ s.sent < cfg.cap)
      (hweb : t.website = none) :
      Step cfg s { s with tasks := l₁ ++ (t, Phase.done) :: l₂ }
  | startLookFallback (s : RunSt) (l₁ l₂ : List (RTask × Phase)) (t : RTask) (w : String)
      (htasks : s.tasks = l₁ ++ (t, Phase.pending) :: l₂)
      (hconc : inflight s < cfg.conc)
      (hkind : t.kind = Pass.fallback)
      (hrs : cfg.resend = true)
      (hguard : s.cancelled = false ∧ s.sent < cfg.cap)
      (hweb : t.website = some w) :
      Step cfg s { s with tasks := l₁ ++ (t, Phase.looking) :: l₂ }
  | lookNoEmailPrimary (s : RunSt) (l₁ l₂ : List (RTask × Phase)) (t : RTask)
      (htasks : s.tasks = l₁ ++ (t, Phase.looking) :: l₂)
      (hkind : t.kind = Pass.primary)
      (hmail : t.email = none) :
      Step cfg s { s with tasks := l₁ ++ (t, Phase.done) :: l₂,
                          skipped := s.skipped + 1 }
  | lookNoEmailFallback (s : RunSt) (l₁ l₂ : List (RTask × Phase)) (t : RTask)
      (htasks : s.tasks = l₁ ++ (t, Phase.looking) :: l₂)
      (hkind : t.kind = Pass.fallback)
      (hmail : t.email = none) :
      Step cfg s { s with tasks := l₁ ++ (t, Phase.done) :: l₂ }
  | lookDedupePrimary (s : RunSt) (l₁ l₂ : List (RTask × Phase)) (t : RTask) (e : String)
      (htasks : s.tasks = l₁ ++ (t, Phase.looking) :: l₂)
      (hkind : t.kind = Pass.primary)
      (hmail : t.email = some e)
      (hdup : primaryDup cfg s (lowerStr e)) :
      Step cfg s { s with tasks := l₁ ++ (t, Phase.done) :: l₂,
                          skipped := s.skipped + 1 }
  | lookDedupeFallback (s : RunSt) (l₁ l₂ : List (RTask × Phase)) (t : RTask) (e : String)
      (htasks : s.tasks = l₁ ++ (t, Phase.looking) :: l₂)
      (hkind : t.kind = Pass.fallback)
      (hmail : t.email = some e)
      (hdup : lowerStr e ∈ s.seenEmails) :
      Step cfg s { s with tasks := l₁ ++ (t, Phase.done) :: l₂ }
  | lookToSendPrimary (s : RunSt) (l₁ l₂ : List (RTask × Phase)) (t : RTask) (e : String)
      (htasks : s.tasks = l₁ ++ (t, Phase.looking) :: l₂)
      (hkind : t.kind = Pass.primary)
      (hmail : t.email = some e)
      (hfresh : ¬ primaryDup cfg s (lowerStr e)) :
      Step cfg s { s with tasks := l₁ ++ (t, Phase.sending) :: l₂,
                          seenEmails := s.seenEmails ++ [lowerStr e],
                          withEmail := s.withEmail + 1 }
  | lookToSendFallback (s : RunSt) (l₁ l₂ : List (RTask × Phase)) (t : RTask) (e : String)
      (htasks : s.tasks = l₁ ++ (t, Phase.looking) :: l₂)
      (hkind : t.kind = Pass.fallback)
      (hmail : t.email = some e)
      (hfresh : lowerStr e ∉ s.seenEmails) :
      Step cfg s { s with tasks := l₁ ++ (t, Phase.sending) :: l₂,
                          seenEmails := s.seenEmails ++ [lowerStr e],
                          withEmail := s.withEmail + 1 }
  | sendOkPrimary (s : RunSt) (l₁ l₂ : List (RTask × Phase)) (t : RTask) (e : String)
      (htasks : s.tasks = l₁ ++ (t, Phase.sending) :: l₂)
      (hkind : t.kind = Pass.primary)
      (hmail : t.email = some e)
      (hok : t.sendOk = true) :
      Step cfg s { s with tasks := l₁ ++ (t, Phase.done) :: l₂,
                          sent := s.sent + 1,
                          rows := s.rows ++ [⟨e, true⟩],
                          ledger := addUnique s.ledger (lowerStr e) }
  | sendOkFallback (s : RunSt) (l₁ l₂ : List (RTask × Phase)) (t : RTask) (e : String)
      (htasks : s.tasks = l₁ ++ (t, Phase.sending) :: l₂)
      (hkind : t.kind = Pass.fallback)
      (hmail : t.email = some e)
      (hok : t.sendOk = true) :
      Step cfg s { s with tasks := l₁ ++ (t, Phase.done) :: l₂,
                          sent := s.sent + 1,
                          rows := s.rows ++ [⟨e, true⟩] }
  | sendFail (s : RunSt) (l₁ l₂ : List (RTask × Phase)) (t : RTask) (e : String)
      (htasks : s.tasks = l₁ ++ (t, Phase.sending) :: l₂)
      (hmail : t.email = some e)
      (hok : t.sendOk = false) :
      Step cfg s { s with tasks := l₁ ++ (t, Phase.done) :: l₂,
                          skipped := s.skipped + 1,
                          rows := s.rows ++ [⟨e, false⟩] }

def Reachable (cfg : RunCfg) : RunSt → RunSt → Prop :=
  Relation.ReflTransGen (Step cfg)

/-- The job state at the start of the run: every task pending, counters
zero, the persisted ledger loaded. -/
def initSt (ledger0 : List String) (tasks : List RTask) : RunSt :=
  { tasks := tasks.map (fun t => (t, Phase.pending)),
    cancelled := false, sent := 0, found := 0, withEmail := 0, skipped := 0,
    ledger := ledger0, seenEmails := [], seenSites := [], rows := [] }


/-- Configuration of the fallback-pass counterexample run:
cap 5, concurrency 2, ignorePrevious off, RESEND_ON_SHORTFALL on. -/
def cfgC3x : RunCfg := ⟨5, 2, false, true⟩

def tC3x : RTask := ⟨Pass.fallback, some "http://x.com", some "a@b.com", true⟩

def s1C3x : RunSt := { initSt ["a@b.com"] [tC3x] with tasks := [(tC3x, Phase.looking)] }

def s2C3x : RunSt :=
  { s1C3x with tasks := [(tC3x, Phase.sending)],
               seenEmails := [lowerStr "a@b.com"], withEmail := 1 }

def s3C3x : RunSt :=
  { s2C3x with tasks := [(tC3x, Phase.done)], sent := 1,
               rows := [⟨"a@b.com", true⟩] }

/-- Configuration of a plain primary-pass run: cap 5, concurrency 2,
ignorePrevious off, RESEND_ON_SHORTFALL off. -/
def cfgC3w : RunCfg := ⟨5, 2, false, false⟩

def tC3w : RTask := ⟨Pass.primary, some "http://x.com", some "c@d.com", true⟩

def s1C3w : RunSt :=
  { initSt ["a@b.com"] [tC3w] with
      tasks := [(tC3w, Phase.looking)],
      found := 1,
      seenSites := [lowerStr "http://x.com"] }

def s2C3w : RunSt :=
  { s1C3w with tasks := [(tC3w, Phase.sending)],
               seenEmails := [lowerStr "c@d.com"], withEmail := 1 }

def s3C3w : RunSt :=
  { s2C3w with tasks := [(tC3w, Phase.done)], sent := 1,
               rows := [⟨"c@d.com", true⟩],
               ledger := addUnique (initSt ["a@b.com"] [tC3w]).ledger (lowerStr "c@d.com") }

def tC10 : RTask := ⟨Pass.primary, none, some "x@y.com", false⟩

/-- A mid-run state with one task about to fail its send. -/
def stC10 : RunSt :=
  { tasks := [(tC10, Phase.sending)], cancelled := false, sent := 0,
    found := 1, withEmail := 1, skipped := 0, ledger := ["a@b.com"],
    seenEmails := ["x@y.com"], seenSites := [], rows := [] }

def stC10f : RunSt :=
  { stC10 with tasks := [(tC10, Phase.done)], skipped := 1,
               rows := [⟨"x@y.com", false⟩] }

/-- The run invariant behind the cross-run dedupe property: the loaded
ledger stays in the ledger, fallback tasks never start when the fallback
pass is disabled, every in-flight send is to a fresh address, and every
produced row is to a fresh address. -/
def C3Inv (ledger0 : List String) (s : RunSt) : Prop :=
  (∀ k ∈ ledger0, k ∈ s.ledger) ∧
  (∀ tp ∈ s.tasks, tp.1.kind = Pass.fallback → tp.2 = Phase.pending) ∧
  (∀ tp ∈ s.tasks, tp.2 = Phase.sending →
      ∀ e, tp.1.email = some e → lowerStr e ∉ ledger0) ∧
  (∀ r ∈ s.rows, lowerStr r.email ∉ ledger0)

/-! ## Lemmas on the character and URL model -/

lemma toNat_ofNat_lower {n : Nat} (h1 : 97 ≤ n) (h2 : n ≤ 122) :
    (Char.ofNat n).toNat = n := by
  have hv : n.isValidChar := Or.inl (by omega)
  rw [Char.ofNat, dif_pos hv]
  simp [Char.ofNatAux, Char.toNat, UInt32.toNat, BitVec.toNat_ofNatLt]

lemma lowChar_toNat_upper {c : Char} (h : 65 ≤ c.toNat ∧ c.toNat ≤ 90) :
    (lowChar c).toNat = c.toNat + 32 := by
  unfold lowChar
  rw [if_pos h]
  exact toNat_ofNat_lower (by omega) (by omega)

lemma lowChar_not_upper (c : Char) :
    ¬ (65 ≤ (lowChar c).toNat ∧ (lowChar c).toNat ≤ 90) := by
  by_cases h : 65 ≤ c.toNat ∧ c.toNat ≤ 90
  · rw [lowChar_toNat_upper h]; omega
  · unfold lowChar; rw [if_neg h]; omega

lemma lowChar_idem (c : Char) : lowChar (lowChar c) = lowChar c := by
  show (if 65 ≤ (lowChar c).toNat ∧ (lowChar c).toNat ≤ 90
        then Char.ofNat ((lowChar c).toNat + 32) else lowChar c) = lowChar c
  rw [if_neg (lowChar_not_upper c)]

lemma lowerL_idem (l : List Char) : lowerL (lowerL l) = lowerL l := by
  simp [lowerL, List.map_map, Function.comp_def, lowChar_idem]

lemma char_eq_iff_toNat {c d : Char} : c = d ↔ c.toNat = d.toNat := by
  constructor
  · intro h; rw [h]
  · intro h; rw [← Char.ofNat_toNat c, ← Char.ofNat_toNat d, h]

lemma isAlphaChar_lowChar {c : Char} (h : isAlphaChar c = true) :
    isAlphaChar (lowChar c) = true := by
  simp only [isAlphaChar, Bool.or_eq_true, Bool.and_eq_true, decide_eq_true_eq] at h ⊢
  by_cases hu : 65 ≤ c.toNat ∧ c.toNat ≤ 90
  · rw [lowChar_toNat_upper hu]; omega
  · unfold lowChar; rw [if_neg hu]; omega

lemma isHostEnd_toNat (c : Char) :
    isHostEnd c = true ↔ (c.toNat = 47 ∨ c.toNat = 63 ∨ c.toNat = 35) := by
  have h1 : Char.toNat '/' = 47 := by decide
  have h2 : Char.toNat '?' = 63 := by decide
  have h3 : Char.toNat '#' = 35 := by decide
  simp only [isHostEnd, Bool.or_eq_true, decide_eq_true_eq]
  rw [@char_eq_iff_toNat c '/', @char_eq_iff_toNat c '?', @char_eq_iff_toNat c '#']
  rw [h1, h2, h3, or_assoc]

lemma isHostEnd_lowChar {c : Char} (h : isHostEnd c = false) :
    isHostEnd (lowChar c) = false := by
  by_cases hu : 65 ≤ c.toNat ∧ c.toNat ≤ 90
  · rw [← Bool.not_eq_true, isHostEnd_toNat, lowChar_toNat_upper hu]; omega
  · unfold lowChar; rw [if_neg hu]; exact h

lemma hash_ne_lowChar {c : Char} (h : c ≠ '#') : lowChar c ≠ '#' := by
  have h3 : Char.toNat '#' = 35 := by decide
  by_cases hu : 65 ≤ c.toNat ∧ c.toNat ≤ 90
  · intro hc
    rw [char_eq_iff_toNat, lowChar_toNat_upper hu, h3] at hc
    omega
  · unfold lowChar; rw [if_neg hu]; exact h

lemma takeWhile_all {p : Char → Bool} {l : List Char} (h : ∀ a ∈ l, p a = true) :
    l.takeWhile p = l := by
  induction l with
  | nil => rfl
  | cons c cs ih =>
    rw [List.takeWhile_cons, if_pos (h c (by simp))]
    rw [ih (fun a ha => h a (by simp [ha]))]

lemma dropWhile_all {p : Char → Bool} {l : List Char} (h : ∀ a ∈ l, p a = true) :
    l.dropWhile p = [] := by
  induction l with
  | nil => rfl
  | cons c cs ih =>
    rw [List.dropWhile_cons, if_pos (h c (by simp))]
    exact ih (fun a ha => h a (by simp [ha]))

lemma takeWhile_append_cons {p : Char → Bool} {l₁ l₂ : List Char} {c : Char}
    (h1 : ∀ a ∈ l₁, p a = true) (h2 : p c = false) :
    (l₁ ++ c :: l₂).takeWhile p = l₁ := by
  induction l₁ with
  | nil => simp [List.takeWhile_cons, h2]
  | cons a as ih =>
    rw [List.cons_append, List.takeWhile_cons, if_pos (h1 a (by simp))]
    rw [ih (fun x hx => h1 x (by simp [hx]))]

lemma dropWhile_append_cons {p : Char → Bool} {l₁ l₂ : List Char} {c : Char}
    (h1 : ∀ a ∈ l₁, p a = true) (h2 : p c = false) :
    (l₁ ++ c :: l₂).dropWhile p = c :: l₂ := by
  induction l₁ with
  | nil => simp [List.dropWhile_cons, h2]
  | cons a as ih =>
    rw [List.cons_append, List.dropWhile_cons, if_pos (h1 a (by simp))]
    exact ih (fun x hx => h1 x (by simp [hx]))

lemma dropWhile_shape (p : Char → Bool) (l : List Char) :
    l.dropWhile p = [] ∨ ∃ c cs, l.dropWhile p = c :: cs ∧ p c = false := by
  induction l with
  | nil => exact Or.inl rfl
  | cons a as ih =>
    rw [List.dropWhile_cons]
    by_cases hp : p a = true
    · rw [if_pos hp]; exact ih
    · rw [if_neg hp]
      exact Or.inr ⟨a, as, rfl, Bool.eq_false_iff.mpr hp⟩

/-- Structural facts guaranteed for every successful `parseAfter`. -/
lemma parseAfter_spec {sch after : List Char} {r : UrlRec}
    (hsch : sch ≠ []) (hsa : ∀ c ∈ sch, isAlphaChar c = true)
    (h : parseAfter sch after = some r) :
    r.scheme ≠ [] ∧ (∀ c ∈ r.scheme, isAlphaChar c = true) ∧
    lowerL r.scheme = r.scheme ∧
    r.host ≠ [] ∧ (∀ c ∈ r.host, isHostEnd c = false) ∧
    lowerL r.host = r.host ∧
    (∀ c ∈ r.rest, c ≠ '#') ∧
    (r.rest = [] ∨ (∃ cs, r.rest = '/' :: cs) ∨ (∃ cs, r.rest = '?' :: cs)) := by
  unfold parseAfter at h
  by_cases h3 : after.takeWhile (fun c => !isHostEnd c) = []
  · simp [h3] at h
  · rw [if_neg h3] at h
    injection h with h
    subst h
    refine ⟨?_, ?_, ?_, ?_, ?_, ?_, ?_, ?_⟩
    · simp only [ne_eq, lowerL, List.map_eq_nil_iff]; exact hsch
    · intro c hc
      simp only [lowerL, List.mem_map] at hc
      obtain ⟨a, ha, rfl⟩ := hc
      exact isAlphaChar_lowChar (hsa a ha)
    · exact lowerL_idem _
    · simp only [ne_eq, lowerL, List.map_eq_nil_iff]; exact h3
    · intro c hc
      simp only [lowerL, List.mem_map] at hc
      obtain ⟨a, ha, rfl⟩ := hc
      have := List.mem_takeWhile_imp ha
      simp only [Bool.not_eq_eq_eq_not, Bool.not_true] at this
      exact isHostEnd_lowChar this
    · exact lowerL_idem _
    · intro c hc
      have := List.mem_takeWhile_imp hc
      simpa using this
    · rcases dropWhile_shape (fun c => !isHostEnd c) after with hsh | ⟨c, cs, hsh, hc⟩
      · left; rw [hsh]; rfl
      · rw [hsh]
        replace hc : isHostEnd c = true := by simpa using hc
        rcases (isHostEnd_toNat c).mp hc with h47 | h63 | h35
        · right; left
          have hce : c = '/' := char_eq_iff_toNat.mpr (by rw [h47]; decide)
          subst hce
          rw [List.takeWhile_cons, if_pos (by decide)]
          exact ⟨_, rfl⟩
        · right; right
          have hce : c = '?' := char_eq_iff_toNat.mpr (by rw [h63]; decide)
          subst hce
          rw [List.takeWhile_cons, if_pos (by decide)]
          exact ⟨_, rfl⟩
        · left
          have hce : c = '#' := char_eq_iff_toNat.mpr (by rw [h35]; decide)
          subst hce
          rw [List.takeWhile_cons, if_neg (by decide)]

/-- Structural facts guaranteed for every successful parse. -/
lemma parseAbs_spec {l : List Char} {r : UrlRec} (h : parseAbs l = some r) :
    r.scheme ≠ [] ∧ (∀ c ∈ r.scheme, isAlphaChar c = true) ∧
    lowerL r.scheme = r.scheme ∧
    r.host ≠ [] ∧ (∀ c ∈ r.host, isHostEnd c = false) ∧
    lowerL r.host = r.host ∧
    (∀ c ∈ r.rest, c ≠ '#') ∧
    (r.rest = [] ∨ (∃ cs, r.rest = '/' :: cs) ∨ (∃ cs, r.rest = '?' :: cs)) := by
  unfold parseAbs at h
  by_cases h1 : l.takeWhile isAlphaChar = []
  · simp [h1] at h
  · rw [if_neg h1] at h
    by_cases h2 : (l.dropWhile isAlphaChar).take 3 = [':', '/', '/']
    · rw [if_pos h2] at h
      exact parseAfter_spec h1 (fun c hc => List.mem_takeWhile_imp hc) h
    · rw [if_neg h2] at h
      exact absurd h (by simp)

lemma restSer_no_hash {r : UrlRec} (h : ∀ c ∈ r.rest, c ≠ '#') :
    ∀ c ∈ restSer r, c ≠ '#' := by
  unfold restSer
  by_cases hc : isSpecial r.scheme ∧ (r.rest = [] ∨ r.rest.head? = some '?')
  · rw [if_pos hc]
    intro c hcm
    rcases List.mem_cons.mp hcm with rfl | hm
    · decide
    · exact h c hm
  · rw [if_neg hc]; exact h

lemma restSer_shape (r : UrlRec)
    (hsh : r.rest = [] ∨ (∃ cs, r.rest = '/' :: cs) ∨ (∃ cs, r.rest = '?' :: cs)) :
    (restSer r = [] ∧ r.rest = [] ∧ isSpecial r.scheme = false) ∨
    (∃ cs, restSer r = '/' :: cs) ∨
    (∃ cs, restSer r = '?' :: cs ∧ isSpecial r.scheme = false ∧ r.rest = '?' :: cs) := by
  unfold restSer
  by_cases hc : isSpecial r.scheme ∧ (r.rest = [] ∨ r.rest.head? = some '?')
  · rw [if_pos hc]
    exact Or.inr (Or.inl ⟨_, rfl⟩)
  · rw [if_neg hc]
    rcases hsh with hr | ⟨cs, hr⟩ | ⟨cs, hr⟩
    · left
      refine ⟨hr, hr, ?_⟩
      by_contra hns
      exact hc ⟨by simpa using hns, Or.inl hr⟩
    · exact Or.inr (Or.inl ⟨cs, hr⟩)
    · right; right
      refine ⟨cs, hr, ?_, hr⟩
      by_contra hns
      exact hc ⟨by simpa using hns, Or.inr (by rw [hr]; rfl)⟩

lemma serializeUrl_eq (r : UrlRec) :
    serializeUrl r = r.scheme ++ ':' :: '/' :: '/' :: (r.host ++ restSer r) := by
  unfold serializeUrl
  simp [List.append_assoc]

/-- Re-parsing a serialized URL succeeds and re-serializing gives the
same string: the key round-trip fact behind idempotent normalization. -/
lemma parse_serialize (r : UrlRec)
    (hs : r.scheme ≠ []) (hsa : ∀ c ∈ r.scheme, isAlphaChar c = true)
    (hsl : lowerL r.scheme = r.scheme)
    (hh : r.host ≠ []) (hhe : ∀ c ∈ r.host, isHostEnd c = false)
    (hhl : lowerL r.host = r.host)
    (hrh : ∀ c ∈ r.rest, c ≠ '#')
    (hsh : r.rest = [] ∨ (∃ cs, r.rest = '/' :: cs) ∨ (∃ cs, r.rest = '?' :: cs)) :
    parseAbs (serializeUrl r) = some ⟨r.scheme, r.host, restSer r⟩ ∧
    serializeUrl ⟨r.scheme, r.host, restSer r⟩ = serializeUrl r := by
  have hcolon : isAlphaChar ':' = false := by decide
  have hTake : (serializeUrl r).takeWhile isAlphaChar = r.scheme := by
    rw [serializeUrl_eq]
    exact takeWhile_append_cons hsa hcolon
  have hDrop : (serializeUrl r).dropWhile isAlphaChar
      = ':' :: '/' :: '/' :: (r.host ++ restSer r) := by
    rw [serializeUrl_eq]
    exact dropWhile_append_cons hsa hcolon
  have hhb : ∀ a ∈ r.host, (!isHostEnd a) = true := by
    intro a ha; rw [hhe a ha]; rfl
  have hHostTake :
      (r.host ++ restSer r).takeWhile (fun c => !isHostEnd c) = r.host := by
    rcases restSer_shape r hsh with ⟨he, _, _⟩ | ⟨cs, he⟩ | ⟨cs, he, _, _⟩
    · rw [he, List.append_nil]; exact takeWhile_all hhb
    · rw [he]; exact takeWhile_append_cons hhb (by decide)
    · rw [he]; exact takeWhile_append_cons hhb (by decide)
  have hHostDrop :
      (r.host ++ restSer r).dropWhile (fun c => !isHostEnd c) = restSer r := by
    rcases restSer_shape r hsh with ⟨he, _, _⟩ | ⟨cs, he⟩ | ⟨cs, he, _, _⟩
    · rw [he, List.append_nil]; exact dropWhile_all hhb
    · rw [he]; exact dropWhile_append_cons hhb (by decide)
    · rw [he]; exact dropWhile_append_cons hhb (by decide)
  have hRestKeep : (restSer r).takeWhile (fun c => c ≠ '#') = restSer r := by
    apply takeWhile_all
    intro a ha
    simpa using restSer_no_hash hrh a ha
  have hParse : parseAbs (serializeUrl r) = some ⟨r.scheme, r.host, restSer r⟩ := by
    unfold parseAbs
    rw [hTake, hDrop]
    rw [if_neg hs]
    rw [if_pos (show List.take 3 (':' :: '/' :: '/' :: (r.host ++ restSer r)) = [':', '/', '/'] from rfl)]
    show parseAfter r.scheme (r.host ++ restSer r) = _
    unfold parseAfter
    rw [hHostTake, hHostDrop]
    rw [if_neg hh]
    rw [hRestKeep, hsl, hhl]
  refine ⟨hParse, ?_⟩
  have hfix : restSer ⟨r.scheme, r.host, restSer r⟩ = restSer r := by
    rcases restSer_shape r hsh with ⟨he, _, hns⟩ | ⟨cs, he⟩ | ⟨cs, he, hns, _⟩
    · rw [he]; unfold restSer; simp [hns]
    · rw [he]; unfold restSer; simp
    · rw [he]; unfold restSer; simp [hns]
  rw [serializeUrl_eq, serializeUrl_eq]
  dsimp only
  rw [hfix]

/-- Idempotence of `normUrl` at the character-list level. -/
lemma normUrlL_idem {l t : List Char} (h : normUrlL l = some t) :
    normUrlL t = some t := by
  unfold normUrlL at h
  by_cases hl : l = []
  · simp [hl] at h
  · rw [if_neg hl] at h
    obtain ⟨r, hr, hser⟩ := Option.map_eq_some'.mp h
    obtain ⟨hs, hsa, hsl, hh, hhe, hhl, hrh, hsh⟩ := parseAbs_spec hr
    obtain ⟨hParse, hSer⟩ := parse_serialize r hs hsa hsl hh hhe hhl hrh hsh
    subst hser
    have ht : serializeUrl r ≠ [] := by
      rw [serializeUrl_eq]
      intro hc
      rcases List.append_eq_nil.mp hc with ⟨_, h2⟩
      exact List.cons_ne_nil _ _ h2
    have hproto : hasProto (serializeUrl r) = true := by
      unfold hasProto
      have hTake : (serializeUrl r).takeWhile isAlphaChar = r.scheme := by
        rw [serializeUrl_eq]
        exact takeWhile_append_cons hsa (by decide)
      have hDrop : (serializeUrl r).dropWhile isAlphaChar
          = ':' :: '/' :: '/' :: (r.host ++ restSer r) := by
        rw [serializeUrl_eq]
        exact dropWhile_append_cons hsa (by decide)
      rw [hTake, hDrop]
      simp [hs]
    unfold normUrlL
    rw [if_neg ht]
    rw [if_pos hproto, hParse]
    simp [hSer]

/-! ## Lemmas on the scorer -/

lemma pickFirstMax_nil (f : String → ℤ) (e : String) :
    pickFirstMax f e [] = e := rfl

lemma pickFirstMax_cons (f : String → ℤ) (e x : String) (r : List String) :
    pickFirstMax f e (x :: r)
      = if f e < f x then pickFirstMax f x r else pickFirstMax f e r := rfl

/-- `pickFirstMax` returns a member of `e :: rest` that attains the
maximal score and is the first member to do so. -/
lemma pickFirstMax_spec (f : String → ℤ) (e : String) (rest : List String) :
    (∀ c ∈ e :: rest, f c ≤ f (pickFirstMax f e rest)) ∧
    ∃ l₁ l₂, e :: rest = l₁ ++ pickFirstMax f e rest :: l₂ ∧
      ∀ c ∈ l₁, f c < f (pickFirstMax f e rest) := by
  induction rest generalizing e with
  | nil =>
    rw [pickFirstMax_nil]
    refine ⟨?_, [], [], rfl, by simp⟩
    intro c hc
    simp only [List.mem_singleton] at hc
    subst hc
    exact le_refl _
  | cons x r ih =>
    by_cases hlt : f e < f x
    · rw [pickFirstMax_cons, if_pos hlt]
      obtain ⟨hmax, l₁, l₂, hsplit, hstrict⟩ := ih x
      have hres : f x ≤ f (pickFirstMax f x r) := hmax x (by simp)
      refine ⟨?_, e :: l₁, l₂, by rw [List.cons_append, ← hsplit], ?_⟩
      · intro c hc
        rcases List.mem_cons.mp hc with rfl | hc2
        · exact le_of_lt (lt_of_lt_of_le hlt hres)
        · exact hmax c hc2
      · intro c hc
        rcases List.mem_cons.mp hc with rfl | hc2
        · exact lt_of_lt_of_le hlt hres
        · exact hstrict c hc2
    · rw [pickFirstMax_cons, if_neg hlt]
      obtain ⟨hmax, l₁, l₂, hsplit, hstrict⟩ := ih e
      have hres : f e ≤ f (pickFirstMax f e r) := hmax e (by simp)
      have hxle : f x ≤ f (pickFirstMax f e r) :=
        le_trans (not_lt.mp hlt) hres
      refine ⟨?_, ?_⟩
      · intro c hc
        rcases List.mem_cons.mp hc with rfl | hc2
        · exact hres
        · rcases List.mem_cons.mp hc2 with rfl | hc3
          · exact hxle
          · exact hmax c (by simp [hc3])
      · rcases l₁ with _ | ⟨a, l₁t⟩
        · simp only [List.nil_append] at hsplit
          injection hsplit with h1 h2
          refine ⟨[], x :: r, ?_, by simp⟩
          rw [List.nil_append, ← h1]
        · simp only [List.cons_append, List.cons.injEq] at hsplit
          obtain ⟨rfl, hsplit2⟩ := hsplit
          refine ⟨e :: x :: l₁t, l₂, ?_, ?_⟩
          · rw [List.cons_append, List.cons_append, ← hsplit2]
          · intro c hc
            rcases List.mem_cons.mp hc with rfl | hc2
            · exact hstrict c (by simp)
            · rcases List.mem_cons.mp hc2 with rfl | hc3
              · exact lt_of_le_of_lt (not_lt.mp hlt) (hstrict e (by simp))
              · exact hstrict c (by simp [hc3])

lemma bestEmail_nil (siteHost : String) :
    bestEmailForDomain [] siteHost = .ok none := rfl

lemma bestEmail_cons (c : String) (cs : List String) (siteHost : String) :
    bestEmailForDomain (c :: cs) siteHost
      = if 2 ≤ (c :: cs).length ∧ (c :: cs).any (fun e => !hasAtSign e)
        then .error ()
        else .ok (some (pickFirstMax (score10 (lowerStr siteHost)) c cs)) := rfl

/-- In the guarded `ok` branch every candidate has an `@`. -/
lemma bestEmail_ok_shape {cands : List String} {siteHost : String} {v : Option String}
    (h : bestEmailForDomain cands siteHost = .ok v) :
    (cands = [] ∧ v = none) ∨
    ∃ c cs, cands = c :: cs ∧ v = some (pickFirstMax (score10 (lowerStr siteHost)) c cs) := by
  match cands with
  | [] =>
    left
    rw [bestEmail_nil] at h
    injection h with h
    exact ⟨rfl, h.symm⟩
  | c :: cs =>
    right
    rw [bestEmail_cons] at h
    by_cases hg : 2 ≤ (c :: cs).length ∧ (c :: cs).any (fun e => !hasAtSign e)
    · rw [if_pos hg] at h
      exact absurd h (by simp)
    · rw [if_neg hg] at h
      injection h with h
      exact ⟨c, cs, rfl, h.symm⟩

/-! ## Claim theorems: C4 and C9 -/

lemma score10_eq_spec (host e : String) :
    (score10 host e : ℚ) = 10 * scoreSpec host e := by
  unfold score10 scoreSpec
  cases emailDomain e with
  | none => norm_num
  | some d =>
    push_cast
    by_cases h1 : d = host
    · cases hb2 : endsWithStr d ("." ++ host) <;> cases hb3 : roleLocal e <;>
        cases hb4 : freeMail d <;>
        simp only [if_pos h1, eq_self_iff_true, if_true, if_false, Bool.false_eq_true] <;> ring
    · cases hb2 : endsWithStr d ("." ++ host) <;> cases hb3 : roleLocal e <;>
        cases hb4 : freeMail d <;>
        simp only [if_neg h1, eq_self_iff_true, if_true, if_false, Bool.false_eq_true] <;> ring

lemma scoreSpec_lt_iff (host a b : String) :
    scoreSpec host a < scoreSpec host b ↔ score10 host a < score10 host b := by
  constructor
  · intro h
    have hq : (score10 host a : ℚ) < (score10 host b : ℚ) := by
      rw [score10_eq_spec, score10_eq_spec]
      have h10 : (0 : ℚ) < 10 := by norm_num
      exact (mul_lt_mul_left h10).mpr h
    exact_mod_cast hq
  · intro h
    have hq : (score10 host a : ℚ) < (score10 host b : ℚ) := by exact_mod_cast h
    rw [score10_eq_spec, score10_eq_spec] at hq
    exact lt_of_mul_lt_mul_left hq (by norm_num)

lemma scoreSpec_le_iff (host a b : String) :
    scoreSpec host a ≤ scoreSpec host b ↔ score10 host a ≤ score10 host b := by
  constructor
  · intro h
    by_contra hc
    exact absurd ((scoreSpec_lt_iff host b a).mpr (not_le.mp hc)) (not_lt.mpr h)
  · intro h
    by_contra hc
    exact absurd ((scoreSpec_lt_iff host b a).mp (not_le.mp hc)) (not_lt.mpr h)

/-- C4: for every non-empty candidate set whose members all contain `@`,
`bestEmailForDomain` returns the candidate maximizing the score
(`+50` exact domain, `+40` subdomain — provably never stacked with the
exact bonus — `+8` role local part, `-20` free webmail, `-0.1` per
character beyond the 24th, all encoded in `scoreSpec`); ties are broken
by first-seen order (everything strictly before the winner scores
strictly less), and the empty candidate set yields `null`. -/
theorem C4_scorer_first_max (siteHost : String) :
    bestEmailForDomain [] siteHost = .ok none ∧
    (∀ d h : String, ¬ (d = h ∧ endsWithStr d ("." ++ h) = true)) ∧
    (∀ cands : List String, cands ≠ [] → (∀ e ∈ cands, hasAtSign e = true) →
      ∃ best l₁ l₂, bestEmailForDomain cands siteHost = .ok (some best) ∧
        cands = l₁ ++ best :: l₂ ∧
        (∀ c ∈ cands, scoreSpec (lowerStr siteHost) c ≤ scoreSpec (lowerStr siteHost) best) ∧
        (∀ c ∈ l₁, scoreSpec (lowerStr siteHost) c < scoreSpec (lowerStr siteHost) best)) := by
  refine ⟨rfl, ?_, ?_⟩
  · rintro d h ⟨rfl, hsuf⟩
    have hs : ("." ++ d).data.length ≤ d.data.length :=
      List.IsSuffix.length_le (by simpa [endsWithStr, endsWithL] using hsuf)
    rw [String.data_append] at hs
    simp at hs
  · intro cands hne hat
    match cands with
    | [] => exact absurd rfl hne
    | c :: cs =>
      have hguard : ¬ (2 ≤ (c :: cs).length ∧ (c :: cs).any (fun e => !hasAtSign e)) := by
        rintro ⟨-, hany⟩
        rw [List.any_eq_true] at hany
        obtain ⟨e, he, hbe⟩ := hany
        rw [hat e he] at hbe
        exact absurd hbe (by simp)
      obtain ⟨hmax, l₁, l₂, hsplit, hstrict⟩ :=
        pickFirstMax_spec (score10 (lowerStr siteHost)) c cs
      refine ⟨pickFirstMax (score10 (lowerStr siteHost)) c cs, l₁, l₂, ?_, hsplit, ?_, ?_⟩
      · rw [bestEmail_cons, if_neg hguard]
      · intro x hx
        exact (scoreSpec_le_iff _ _ _).mpr (hmax x hx)
      · intro x hx
        exact (scoreSpec_lt_iff _ _ _).mpr (hstrict x hx)

/-- Witness for C4 at the spec example: for candidates
`jane@gmail.com, info@acme.com` and host `acme.com` the scorer picks a
maximal candidate, and evaluation shows it is `info@acme.com`. -/
theorem C4_scorer_first_max_witness :
    (∃ best l₁ l₂,
      bestEmailForDomain ["jane@gmail.com", "info@acme.com"] "acme.com" = .ok (some best) ∧
      ["jane@gmail.com", "info@acme.com"] = l₁ ++ best :: l₂ ∧
      (∀ c ∈ ["jane@gmail.com", "info@acme.com"],
        scoreSpec (lowerStr "acme.com") c ≤ scoreSpec (lowerStr "acme.com") best) ∧
      (∀ c ∈ l₁, scoreSpec (lowerStr "acme.com") c < scoreSpec (lowerStr "acme.com") best)) ∧
    bestEmailForDomain ["jane@gmail.com", "info@acme.com"] "acme.com"
      = .ok (some "info@acme.com") :=
  ⟨(C4_scorer_first_max "acme.com").2.2 ["jane@gmail.com", "info@acme.com"]
      (by decide) (by decide),
   by rfl⟩

/-- C9: URL normalization is idempotent — normalizing a second time
returns the first result unchanged — and `example.com` and
`https://example.com` normalize to equal results. -/
theorem C9_normUrl_idempotent :
    (∀ s t : String, normUrl (some s) = some t → normUrl (some t) = some t) ∧
    normUrl (some "example.com") = normUrl (some "https://example.com") := by
  constructor
  · intro s t h
    rw [show normUrl (some t) = (normUrlL t.data).map String.mk from rfl]
    rw [show normUrl (some s) = (normUrlL s.data).map String.mk from rfl] at h
    obtain ⟨tl, htl, hmk⟩ := Option.map_eq_some'.mp h
    subst hmk
    rw [show (String.mk tl).data = tl from rfl]
    rw [normUrlL_idem htl]
    rfl
  · decide

/-- Witness for C9: normalizing the already-normal `https://example.com/`
is a fixed point, obtained by applying idempotence to the result of
normalizing `example.com`. -/
theorem C9_normUrl_idempotent_witness :
    normUrl (some "https://example.com/") = some "https://example.com/" :=
  C9_normUrl_idempotent.1 "example.com" "https://example.com/" (by decide)

/-! ## Claim theorems: C1, C5, C6, C7 -/

lemma findEmail_eq_nosite (o : Oracle) (c : Cache) (site : Option String)
    (hints : Hints) (hn : normUrl site = none) :
    findEmailOnSite o c site hints = findEmailNoSite o c hints := by
  unfold findEmailOnSite
  rw [hn]

lemma findEmail_eq_resolved (o : Oracle) (c : Cache) (site : Option String)
    (hints : Hints) (u : String) (hn : normUrl site = some u) :
    findEmailOnSite o c site hints = findEmailResolved o c u hints := by
  unfold findEmailOnSite
  rw [hn]

lemma bestEmail_error {cands : List String} {h : String}
    (he : bestEmailForDomain cands h = .error ()) :
    2 ≤ cands.length ∧ ∃ e ∈ cands, hasAtSign e = false := by
  match cands with
  | [] => rw [bestEmail_nil] at he; exact absurd he (by simp)
  | c :: cs =>
    rw [bestEmail_cons] at he
    by_cases hg : 2 ≤ (c :: cs).length ∧ (c :: cs).any (fun e => !hasAtSign e)
    · obtain ⟨h1, h2⟩ := hg
      rw [List.any_eq_true] at h2
      obtain ⟨e, he2, hb⟩ := h2
      exact ⟨h1, e, he2, by simpa using hb⟩
    · rw [if_neg hg] at he
      exact absurd he (by simp)

lemma noSite_never_throws (o : Oracle) (c : Cache) (hints : Hints) :
    ∃ res c₂ t, findEmailNoSite o c hints = (.ok res, c₂, t) := by
  unfold findEmailNoSite
  by_cases hc : FETCH_SOCIALS ∧ (hints.name.getD "") ≠ ""
  · rw [if_pos hc]
    rcases hfs : facebookSearchSlugs o (hintsQuery hints) with ⟨slugs, tr⟩
    rcases hns : noSiteLoop o slugs tr with ⟨res, tr2⟩
    exact ⟨res, c, tr2, by simp only [hns]⟩
  · rw [if_neg hc]
    exact ⟨none, c, [], rfl⟩

/-- C1 (amended): `findEmailOnSite` throws only when the deduplicated
candidate list reaching the scorer has at least two entries, one of
which has no `@` (reachable through a malformed `data-cfemail` decode);
every other internal failure — fetch errors, malformed URLs, malformed
structured data — is swallowed and yields `.ok`. -/
theorem C1_error_characterization (o : Oracle) (c : Cache) (site : Option String)
    (hints : Hints) (h : (findEmailOnSite o c site hints).1 = .error ()) :
    ∃ u, normUrl site = some u ∧
      2 ≤ (uniqLower (crawlSite o u hints).seen).length ∧
      ∃ e ∈ uniqLower (crawlSite o u hints).seen, hasAtSign e = false := by
  cases hn : normUrl site with
  | none =>
    rw [findEmail_eq_nosite o c site hints hn] at h
    obtain ⟨res, c₂, t, hok⟩ := noSite_never_throws o c hints
    rw [hok] at h
    exact absurd h (by simp)
  | some u =>
    rw [findEmail_eq_resolved o c site hints u hn] at h
    unfold findEmailResolved at h
    cases hl : c.lookup (hostOfUrl u) with
    | some v => rw [hl] at h; exact absurd h (by simp)
    | none =>
      rw [hl] at h
      cases hb : bestEmailForDomain (uniqLower (crawlSite o u hints).seen) (hostOfUrl u) with
      | error e =>
        obtain ⟨h1, h2⟩ := bestEmail_error (by rw [hb])
        exact ⟨u, rfl, h1, h2⟩
      | ok b => rw [hb] at h; exact absurd h (by simp)

/-- Witness for C1: the characterization applied to the concrete
throwing input of `C1_counterexample`. -/
theorem C1_error_characterization_witness :
    ∃ u, normUrl (some "b.co") = some u ∧
      2 ≤ (uniqLower (crawlSite oracleC1 u noHints).seen).length ∧
      ∃ e ∈ uniqLower (crawlSite oracleC1 u noHints).seen, hasAtSign e = false :=
  C1_error_characterization oracleC1 [] (some "b.co") noHints (by rfl)

/-- C1 counterexample: the claim "findEmailOnSite never throws" is
false — on a homepage whose candidate set mixes a real email with a
malformed `data-cfemail` decode, the call throws (the scorer
dereferences an `undefined` domain), and no result is cached. -/
theorem C1_counterexample :
    findEmailOnSite oracleC1 [] (some "b.co") noHints
      = (.error (), [], ["https://b.co/"]) := by
  rfl

lemma jsOrStr_none_fix (a b : Option String) :
    jsOrStr (jsOrStr a (jsOrStr b none)) none = jsOrStr a (jsOrStr b none) := by
  by_cases ha : truthyStr a = true
  · unfold jsOrStr
    rw [if_pos ha, if_pos ha]
  · by_cases hb : truthyStr b = true
    · unfold jsOrStr
      rw [if_neg ha, if_pos hb, if_pos hb]
    · unfold jsOrStr
      rw [if_neg ha, if_neg hb]
      rw [if_neg (by simp [truthyStr])]

/-- C5: once a host is resolved (a successful earlier call), a second
call with the same website — any hints — returns the identical result,
including a cached `null`, fetches nothing, and leaves the cache
unchanged. -/
theorem C5_memoization (o : Oracle) (c : Cache) (site : Option String)
    (h₁ h₂ : Hints) (u : String) (r : Option String) (c₁ : Cache) (t₁ : List String)
    (hn : normUrl site = some u)
    (hcall : findEmailOnSite o c site h₁ = (.ok r, c₁, t₁)) :
    findEmailOnSite o c₁ site h₂ = (.ok r, c₁, []) := by
  rw [findEmail_eq_resolved o c site h₁ u hn] at hcall
  rw [findEmail_eq_resolved o c₁ site h₂ u hn]
  unfold findEmailResolved at hcall ⊢
  cases hl : c.lookup (hostOfUrl u) with
  | some v =>
    rw [hl] at hcall
    injection hcall with h1 h2
    injection h1 with h1
    injection h2 with h2 h3
    subst h1; subst h2
    rw [hl]
  | none =>
    rw [hl] at hcall
    cases hb : bestEmailForDomain (uniqLower (crawlSite o u h₁).seen) (hostOfUrl u) with
    | error e => rw [hb] at hcall; exact absurd hcall (by simp)
    | ok b =>
      rw [hb] at hcall
      injection hcall with h1 h2
      injection h1 with h1
      injection h2 with h2 h3
      subst h1; subst h2
      rw [show List.lookup (hostOfUrl u)
          ((hostOfUrl u,
            jsOrStr (jsOrStr b (jsOrStr (uniqLower (crawlSite o u h₁).seen).head? none)) none)
            :: c)
        = some (jsOrStr (jsOrStr b (jsOrStr (uniqLower (crawlSite o u h₁).seen).head? none)) none)
        from by simp [List.lookup]]
      rw [jsOrStr_none_fix]

/-- Witness for C5: resolving `d.co` once caches the result; the second
call returns it identically with an empty fetch trace. -/
theorem C5_memoization_witness :
    findEmailOnSite oracleC5 [("d.co", some "c@d.co")] (some "d.co") noHints
      = (.ok (some "c@d.co"), [("d.co", some "c@d.co")], []) :=
  C5_memoization oracleC5 [] (some "d.co") noHints noHints "https://d.co/"
    (some "c@d.co") [("d.co", some "c@d.co")] ["https://d.co/"] (by rfl) (by rfl)

/-- C6 (amended): the fetcher has no body-size cap — it returns the
oracle body whole, whatever its length, with no failure and no
truncation. -/
theorem C6_fetch_returns_whole_body (o : Oracle) (u : String) (r : NetResponse)
    (h : o u = .ok r) :
    fetchWithTimeout o u = .ok ⟨r.ok, r.status, r.finalUrl, r.body, r.contentType⟩ ∧
    ∀ fr, fetchWithTimeout o u = .ok fr → fr.html = r.body := by
  constructor
  · unfold fetchWithTimeout
    rw [h]
  · intro fr hfr
    unfold fetchWithTimeout at hfr
    rw [h] at hfr
    injection hfr with hfr
    rw [← hfr]

/-- Witness for C6 at a concrete response. -/
theorem C6_fetch_returns_whole_body_witness :
    fetchWithTimeout oracleC5 "https://d.co/"
      = .ok ⟨true, 200, "https://d.co/", "<p>c@d.co</p>", "text/html"⟩ :=
  (C6_fetch_returns_whole_body oracleC5 "https://d.co/"
    ⟨true, 200, "https://d.co/", "<p>c@d.co</p>", "text/html"⟩ (by rfl)).1

/-- C6 counterexample: the claim that bodies above the ~1.5MB cap are
truncated at the cap is false — a 1,500,001-character body is returned
in full. -/
theorem C6_counterexample :
    ∃ fr, fetchWithTimeout oracleC6 "https://x.co/" = .ok fr ∧
      fr.html.length = 1500001 ∧ 1500000 < fr.html.length := by
  refine ⟨⟨true, 200, "https://x.co/", bigBody, "text/html"⟩, rfl, ?_, ?_⟩
  · show bigBody.length = 1500001
    show (List.replicate 1500001 'a').length = 1500001
    exact List.length_replicate 1500001 'a'
  · show 1500000 < bigBody.length
    have : bigBody.length = 1500001 := by
      show (List.replicate 1500001 'a').length = 1500001
      exact List.length_replicate 1500001 'a'
    omega

lemma siteUrlsLoop_counter (o : Oracle) (urls : List String) :
    ∀ (st : CrawlSt) (fv att : Nat),
      (siteUrlsLoop o urls st fv att).2.2 + (13 - (siteUrlsLoop o urls st fv att).2.1)
        ≤ att + (13 - fv) := by
  induction urls with
  | nil => intro st fv att; unfold siteUrlsLoop; (try dsimp only); omega
  | cons u rest ih =>
    intro st fv att
    unfold siteUrlsLoop
    by_cases hv : u ∈ st.visited
    · rw [if_pos hv]; exact ih st fv att
    · rw [if_neg hv]
      by_cases hfv : fv > MAX_PAGES
      · rw [if_pos hfv]
        simp only [MAX_PAGES] at hfv
        try dsimp only
        omega
      · rw [if_neg hfv]
        simp only [MAX_PAGES] at hfv
        rcases doFetch o st u with ⟨res, st'⟩
        cases res with
        | error e =>
          try dsimp only
          have := ih st' (fv + 1) (att + 1)
          omega
        | ok r =>
          try dsimp only
          by_cases hok : r.ok = true
          · rw [if_pos hok]
            by_cases hseen : (addSeen (addVisited st' r.url) (extractAll r.html)).seen ≠ []
            · rw [if_pos hseen]
              try dsimp only
              omega
            · rw [if_neg hseen]
              try dsimp only
              have := ih (addSeen (addVisited st' r.url) (extractAll r.html)) (fv + 1) (att + 1)
              omega
          · rw [if_neg hok]
            try dsimp only
            have := ih st' (fv + 1) (att + 1)
            omega

lemma siteMapsLoop_counter (o : Oracle) (maps : List String) :
    ∀ (st : CrawlSt) (fv att : Nat),
      (siteMapsLoop o maps st fv att).2.2 + (13 - (siteMapsLoop o maps st fv att).2.1)
        ≤ att + (13 - fv) := by
  induction maps with
  | nil => intro st fv att; unfold siteMapsLoop; (try dsimp only); omega
  | cons m rest ih =>
    intro st fv att
    unfold siteMapsLoop
    by_cases hfv : fv > MAX_PAGES
    · rw [if_pos hfv]
    · rw [if_neg hfv]
      rcases doFetch o st m with ⟨res, st'⟩
      cases res with
      | error e => (try dsimp only); omega
      | ok sm =>
        try dsimp only
        by_cases hok : sm.ok = true
        · rw [if_pos hok]
          rcases hinner : siteUrlsLoop o ((extractUrlsFromSitemap sm.html).take 25) st' fv att
            with ⟨st2, fv2, att2⟩
          have hin := siteUrlsLoop_counter o ((extractUrlsFromSitemap sm.html).take 25) st' fv att
          rw [hinner] at hin
          dsimp only at hin
          by_cases hseen : st2.seen ≠ []
          · rw [if_pos hseen]
            try dsimp only
            omega
          · rw [if_neg hseen]
            try dsimp only
            have := ih st2 fv2 att2
            omega
        · rw [if_neg hok]
          exact ih st' fv att

lemma siteUrlsLoop_att_le_len (o : Oracle) (urls : List String) :
    ∀ (st : CrawlSt) (fv att : Nat),
      (siteUrlsLoop o urls st fv att).2.2 ≤ att + urls.length := by
  induction urls with
  | nil => intro st fv att; unfold siteUrlsLoop; (try dsimp only); omega
  | cons u rest ih =>
    intro st fv att
    unfold siteUrlsLoop
    by_cases hv : u ∈ st.visited
    · rw [if_pos hv]
      have := ih st fv att
      simp only [List.length_cons]
      omega
    · rw [if_neg hv]
      by_cases hfv : fv > MAX_PAGES
      · rw [if_pos hfv]; (try dsimp only); simp
      · rw [if_neg hfv]
        rcases doFetch o st u with ⟨res, st'⟩
        cases res with
        | error e =>
          try dsimp only
          have := ih st' (fv + 1) (att + 1)
          simp only [List.length_cons]
          omega
        | ok r =>
          try dsimp only
          by_cases hok : r.ok = true
          · rw [if_pos hok]
            by_cases hseen : (addSeen (addVisited st' r.url) (extractAll r.html)).seen ≠ []
            · rw [if_pos hseen]
              try dsimp only
              simp only [List.length_cons]
              omega
            · rw [if_neg hseen]
              try dsimp only
              have := ih (addSeen (addVisited st' r.url) (extractAll r.html)) (fv + 1) (att + 1)
              simp only [List.length_cons]
              omega
          · rw [if_neg hok]
            try dsimp only
            have := ih st' (fv + 1) (att + 1)
            simp only [List.length_cons]
            omega

/-- C7 (amended): in the sitemap fallback, at most 25 URLs are sampled
per sitemap file (`slice(0, 25)` bounds the inner loop by 25 new
attempts), but the post-increment guard `fetched++ > MAX_PAGES` allows
up to 13 — not 12 — sitemap-listed page fetch attempts per call (the
counter starts at 0, as in `sitemapPhase`). -/
theorem C7_sitemap_caps :
    (∀ (o : Oracle) (maps : List String) (st : CrawlSt),
      (siteMapsLoop o maps st 0 0).2.2 ≤ 13) ∧
    (∀ (o : Oracle) (xml : String) (st : CrawlSt) (fv att : Nat),
      (siteUrlsLoop o ((extractUrlsFromSitemap xml).take 25) st fv att).2.2 ≤ att + 25) := by
  constructor
  · intro o maps st
    have := siteMapsLoop_counter o maps st 0 0
    omega
  · intro o xml st fv att
    have h1 := siteUrlsLoop_att_le_len o ((extractUrlsFromSitemap xml).take 25) st fv att
    have h2 : ((extractUrlsFromSitemap xml).take 25).length ≤ 25 := List.length_take_le 25 _
    omega

set_option maxRecDepth 8000 in
/-- C7 counterexample: the claim caps sitemap-page fetches at 12, but a
sitemap listing 25 fresh pages with no emails drives exactly 13 fetch
attempts before the guard breaks. -/
theorem C7_counterexample :
    (siteMapsLoop oracleC7 ["https://s.co/sitemap.xml"] emptyCrawl 0 0).2.2 = 13 ∧
    ¬ (13 ≤ 12) :=
  ⟨by decide, by omega⟩

/-! ## Claim theorems: C8 -/

/-- C8 counterexample: with an empty city list the orchestrator does
not search a single default area — the default city `United States`
goes through the generic compass fanout and yields 7 areas. -/
theorem C8_counterexample :
    (runAreas []).length = 7 ∧ ¬ ((runAreas []).length = 1) := by
  constructor
  · rfl
  · intro h
    rw [show (runAreas []).length = 7 from rfl] at h
    exact absurd h (by omega)

/-- C8 (amended): an empty city list is replaced by the single default
city `United States`, which the city expander then fans out into the 7
generic compass areas. -/
theorem C8_default_area_fanout :
    runAreas [] =
      ["United States", "North United States", "South United States",
       "East United States", "West United States", "United States Downtown",
       "United States Suburbs"] ∧
    runAreas [] = expandCity "United States" := by
  constructor
  · rfl
  · rfl

/-! ## The run model: soft cap, cross-run dedupe, ledger growth -/

lemma isInflight_pending (t : RTask) : isInflight (t, Phase.pending) = false := rfl
lemma isInflight_looking (t : RTask) : isInflight (t, Phase.looking) = true := rfl
lemma isInflight_sending (t : RTask) : isInflight (t, Phase.sending) = true := rfl
lemma isInflight_done (t : RTask) : isInflight (t, Phase.done) = false := rfl

lemma countP_update (l₁ l₂ : List (RTask × Phase)) (t : RTask) (ph ph' : Phase) :
    (l₁ ++ (t, ph') :: l₂).countP isInflight + (if isInflight (t, ph) then 1 else 0)
      = (l₁ ++ (t, ph) :: l₂).countP isInflight + (if isInflight (t, ph') then 1 else 0) := by
  rw [List.countP_append, List.countP_append, List.countP_cons, List.countP_cons]
  by_cases ha : isInflight (t, ph) <;> by_cases hb : isInflight (t, ph') <;>
    simp [ha, hb] <;> omega

lemma inflight_tasks (s : RunSt) : inflight s = s.tasks.countP isInflight := rfl

lemma C2_inv_step (cfg : RunCfg) {s s' : RunSt} (h : Step cfg s s')
    (h1 : s.sent + inflight s < cfg.cap + cfg.conc)
    (h2 : s.rows.countP (fun r => r.sentOk) = s.sent) :
    s'.sent + inflight s' < cfg.cap + cfg.conc ∧
    s'.rows.countP (fun r => r.sentOk) = s'.sent := by
  cases h with
  | cancel =>
    exact ⟨h1, h2⟩
  | startGuardFail l₁ l₂ t htasks hconc hrun hguard =>
    refine ⟨?_, h2⟩
    have hd := countP_update l₁ l₂ t Phase.pending Phase.done
    rw [isInflight_pending, isInflight_done] at hd
    simp only [if_true, if_false, Bool.false_eq_true] at hd
    rw [inflight_tasks, htasks] at h1
    show s.sent + (l₁ ++ (t, Phase.done) :: l₂).countP isInflight < _
    omega
  | startSkipPrimary l₁ l₂ t htasks hconc hkind hguard hskip =>
    refine ⟨?_, h2⟩
    have hd := countP_update l₁ l₂ t Phase.pending Phase.done
    rw [isInflight_pending, isInflight_done] at hd
    simp only [if_true, if_false, Bool.false_eq_true] at hd
    rw [inflight_tasks, htasks] at h1
    show s.sent + (l₁ ++ (t, Phase.done) :: l₂).countP isInflight < _
    omega
  | startLookPrimary l₁ l₂ t w htasks hconc hkind hguard hweb hfresh =>
    refine ⟨?_, h2⟩
    have hd := countP_update l₁ l₂ t Phase.pending Phase.looking
    rw [isInflight_pending, isInflight_looking] at hd
    simp only [if_true, if_false, Bool.false_eq_true] at hd
    rw [inflight_tasks, htasks] at h1
    rw [inflight_tasks, htasks] at hconc
    show s.sent + (l₁ ++ (t, Phase.looking) :: l₂).countP isInflight < _
    obtain ⟨-, hcap⟩ := hguard
    omega
  | startSkipFallback l₁ l₂ t htasks hconc hkind hrs hguard hweb =>
    refine ⟨?_, h2⟩
    have hd := countP_update l₁ l₂ t Phase.pending Phase.done
    rw [isInflight_pending, isInflight_done] at hd
    simp only [if_true, if_false, Bool.false_eq_true] at hd
    rw [inflight_tasks, htasks] at h1
    show s.sent + (l₁ ++ (t, Phase.done) :: l₂).countP isInflight < _
    omega
  | startLookFallback l₁ l₂ t w htasks hconc hkind hrs hguard hweb =>
    refine ⟨?_, h2⟩
    have hd := countP_update l₁ l₂ t Phase.pending Phase.looking
    rw [isInflight_pending, isInflight_looking] at hd
    simp only [if_true, if_false, Bool.false_eq_true] at hd
    rw [inflight_tasks, htasks] at h1
    rw [inflight_tasks, htasks] at hconc
    show s.sent + (l₁ ++ (t, Phase.looking) :: l₂).countP isInflight < _
    obtain ⟨-, hcap⟩ := hguard
    omega
  | lookNoEmailPrimary l₁ l₂ t htasks hkind hmail =>
    refine ⟨?_, h2⟩
    have hd := countP_update l₁ l₂ t Phase.looking Phase.done
    rw [isInflight_looking, isInflight_done] at hd
    simp only [if_true, if_false, Bool.false_eq_true] at hd
    rw [inflight_tasks, htasks] at h1
    show s.sent + (l₁ ++ (t, Phase.done) :: l₂).countP isInflight < _
    omega
  | lookNoEmailFallback l₁ l₂ t htasks hkind hmail =>
    refine ⟨?_, h2⟩
    have hd := countP_update l₁ l₂ t Phase.looking Phase.done
    rw [isInflight_looking, isInflight_done] at hd
    simp only [if_true, if_false, Bool.false_eq_true] at hd
    rw [inflight_tasks, htasks] at h1
    show s.sent + (l₁ ++ (t, Phase.done) :: l₂).countP isInflight < _
    omega
  | lookDedupePrimary l₁ l₂ t e htasks hkind hmail hdup =>
    refine ⟨?_, h2⟩
    have hd := countP_update l₁ l₂ t Phase.looking Phase.done
    rw [isInflight_looking, isInflight_done] at hd
    simp only [if_true, if_false, Bool.false_eq_true] at hd
    rw [inflight_tasks, htasks] at h1
    show s.sent + (l₁ ++ (t, Phase.done) :: l₂).countP isInflight < _
    omega
  | lookDedupeFallback l₁ l₂ t e htasks hkind hmail hdup =>
    refine ⟨?_, h2⟩
    have hd := countP_update l₁ l₂ t Phase.looking Phase.done
    rw [isInflight_looking, isInflight_done] at hd
    simp only [if_true, if_false, Bool.false_eq_true] at hd
    rw [inflight_tasks, htasks] at h1
    show s.sent + (l₁ ++ (t, Phase.done) :: l₂).countP isInflight < _
    omega
  | lookToSendPrimary l₁ l₂ t e htasks hkind hmail hfresh =>
    refine ⟨?_, h2⟩
    have hd := countP_update l₁ l₂ t Phase.looking Phase.sending
    rw [isInflight_looking, isInflight_sending] at hd
    simp only [if_true, if_false, Bool.false_eq_true] at hd
    rw [inflight_tasks, htasks] at h1
    show s.sent + (l₁ ++ (t, Phase.sending) :: l₂).countP isInflight < _
    omega
  | lookToSendFallback l₁ l₂ t e htasks hkind hmail hfresh =>
    refine ⟨?_, h2⟩
    have hd := countP_update l₁ l₂ t Phase.looking Phase.sending
    rw [isInflight_looking, isInflight_sending] at hd
    simp only [if_true, if_false, Bool.false_eq_true] at hd
    rw [inflight_tasks, htasks] at h1
    show s.sent + (l₁ ++ (t, Phase.sending) :: l₂).countP isInflight < _
    omega
  | sendOkPrimary l₁ l₂ t e htasks hkind hmail hok =>
    constructor
    · have hd := countP_update l₁ l₂ t Phase.sending Phase.done
      rw [isInflight_sending, isInflight_done] at hd
      simp only [if_true, if_false, Bool.false_eq_true] at hd
      rw [inflight_tasks, htasks] at h1
      show s.sent + 1 + (l₁ ++ (t, Phase.done) :: l₂).countP isInflight < _
      omega
    · show (s.rows ++ [(⟨e, true⟩ : Row)]).countP (fun r => r.sentOk) = s.sent + 1
      rw [List.countP_append, h2]
      simp
  | sendOkFallback l₁ l₂ t e htasks hkind hmail hok =>
    constructor
    · have hd := countP_update l₁ l₂ t Phase.sending Phase.done
      rw [isInflight_sending, isInflight_done] at hd
      simp only [if_true, if_false, Bool.false_eq_true] at hd
      rw [inflight_tasks, htasks] at h1
      show s.sent + 1 + (l₁ ++ (t, Phase.done) :: l₂).countP isInflight < _
      omega
    · show (s.rows ++ [(⟨e, true⟩ : Row)]).countP (fun r => r.sentOk) = s.sent + 1
      rw [List.countP_append, h2]
      simp
  | sendFail l₁ l₂ t e htasks hmail hok =>
    constructor
    · have hd := countP_update l₁ l₂ t Phase.sending Phase.done
      rw [isInflight_sending, isInflight_done] at hd
      simp only [if_true, if_false, Bool.false_eq_true] at hd
      rw [inflight_tasks, htasks] at h1
      show s.sent + (l₁ ++ (t, Phase.done) :: l₂).countP isInflight < _
      omega
    · show (s.rows ++ [(⟨e, false⟩ : Row)]).countP (fun r => r.sentOk) = s.sent
      rw [List.countP_append, h2]
      simp


lemma C2_no_new_inflight (cfg : RunCfg) {u u' : RunSt} (h : Step cfg u u')
    (hcap : cfg.cap ≤ u.sent) : inflight u' ≤ inflight u := by
  cases h with
  | cancel => exact le_refl _
  | startGuardFail l₁ l₂ t htasks hconc hrun hguard =>
    have hd := countP_update l₁ l₂ t Phase.pending Phase.done
    rw [isInflight_pending, isInflight_done] at hd
    simp only [if_true, if_false, Bool.false_eq_true] at hd
    rw [inflight_tasks, inflight_tasks, htasks]
    show (l₁ ++ (t, Phase.done) :: l₂).countP isInflight ≤ _
    omega
  | startSkipPrimary l₁ l₂ t htasks hconc hkind hguard hskip =>
    exact absurd hguard.2 (by omega)
  | startLookPrimary l₁ l₂ t w htasks hconc hkind hguard hweb hfresh =>
    exact absurd hguard.2 (by omega)
  | startSkipFallback l₁ l₂ t htasks hconc hkind hrs hguard hweb =>
    exact absurd hguard.2 (by omega)
  | startLookFallback l₁ l₂ t w htasks hconc hkind hrs hguard hweb =>
    exact absurd hguard.2 (by omega)
  | lookNoEmailPrimary l₁ l₂ t htasks hkind hmail =>
    have hd := countP_update l₁ l₂ t Phase.looking Phase.done
    rw [isInflight_looking, isInflight_done] at hd
    simp only [if_true, if_false, Bool.false_eq_true] at hd
    rw [inflight_tasks, inflight_tasks, htasks]
    show (l₁ ++ (t, Phase.done) :: l₂).countP isInflight ≤ _
    omega
  | lookNoEmailFallback l₁ l₂ t htasks hkind hmail =>
    have hd := countP_update l₁ l₂ t Phase.looking Phase.done
    rw [isInflight_looking, isInflight_done] at hd
    simp only [if_true, if_false, Bool.false_eq_true] at hd
    rw [inflight_tasks, inflight_tasks, htasks]
    show (l₁ ++ (t, Phase.done) :: l₂).countP isInflight ≤ _
    omega
  | lookDedupePrimary l₁ l₂ t e htasks hkind hmail hdup =>
    have hd := countP_update l₁ l₂ t Phase.looking Phase.done
    rw [isInflight_looking, isInflight_done] at hd
    simp only [if_true, if_false, Bool.false_eq_true] at hd
    rw [inflight_tasks, inflight_tasks, htasks]
    show (l₁ ++ (t, Phase.done) :: l₂).countP isInflight ≤ _
    omega
  | lookDedupeFallback l₁ l₂ t e htasks hkind hmail hdup =>
    have hd := countP_update l₁ l₂ t Phase.looking Phase.done
    rw [isInflight_looking, isInflight_done] at hd
    simp only [if_true, if_false, Bool.false_eq_true] at hd
    rw [inflight_tasks, inflight_tasks, htasks]
    show (l₁ ++ (t, Phase.done) :: l₂).countP isInflight ≤ _
    omega
  | lookToSendPrimary l₁ l₂ t e htasks hkind hmail hfresh =>
    have hd := countP_update l₁ l₂ t Phase.looking Phase.sending
    rw [isInflight_looking, isInflight_sending] at hd
    simp only [if_true] at hd
    rw [inflight_tasks, inflight_tasks, htasks]
    show (l₁ ++ (t, Phase.sending) :: l₂).countP isInflight ≤ _
    omega
  | lookToSendFallback l₁ l₂ t e htasks hkind hmail hfresh =>
    have hd := countP_update l₁ l₂ t Phase.looking Phase.sending
    rw [isInflight_looking, isInflight_sending] at hd
    simp only [if_true] at hd
    rw [inflight_tasks, inflight_tasks, htasks]
    show (l₁ ++ (t, Phase.sending) :: l₂).countP isInflight ≤ _
    omega
  | sendOkPrimary l₁ l₂ t e htasks hkind hmail hok =>
    have hd := countP_update l₁ l₂ t Phase.sending Phase.done
    rw [isInflight_sending, isInflight_done] at hd
    simp only [if_true, if_false, Bool.false_eq_true] at hd
    rw [inflight_tasks, inflight_tasks, htasks]
    show (l₁ ++ (t, Phase.done) :: l₂).countP isInflight ≤ _
    omega
  | sendOkFallback l₁ l₂ t e htasks hkind hmail hok =>
    have hd := countP_update l₁ l₂ t Phase.sending Phase.done
    rw [isInflight_sending, isInflight_done] at hd
    simp only [if_true, if_false, Bool.false_eq_true] at hd
    rw [inflight_tasks, inflight_tasks, htasks]
    show (l₁ ++ (t, Phase.done) :: l₂).countP isInflight ≤ _
    omega
  | sendFail l₁ l₂ t e htasks hmail hok =>
    have hd := countP_update l₁ l₂ t Phase.sending Phase.done
    rw [isInflight_sending, isInflight_done] at hd
    simp only [if_true, if_false, Bool.false_eq_true] at hd
    rw [inflight_tasks, inflight_tasks, htasks]
    show (l₁ ++ (t, Phase.done) :: l₂).countP isInflight ≤ _
    omega

lemma C2_inv_reach (cfg : RunCfg) (ledger0 : List String) (tasks : List RTask)
    (hc : 1 ≤ cfg.conc) {s : RunSt}
    (hr : Reachable cfg (initSt ledger0 tasks) s) :
    s.sent + inflight s < cfg.cap + cfg.conc ∧
    s.rows.countP (fun r => r.sentOk) = s.sent := by
  induction hr with
  | refl =>
    constructor
    · show 0 + inflight (initSt ledger0 tasks) < cfg.cap + cfg.conc
      have hz : inflight (initSt ledger0 tasks) = 0 := by
        rw [inflight_tasks]
        show (tasks.map (fun t => (t, Phase.pending))).countP isInflight = 0
        induction tasks with
        | nil => rfl
        | cons a l ih => simp [List.countP_cons, isInflight_pending, ih]
      omega
    · rfl
  | tail _ hstep ih => exact C2_inv_step cfg hstep ih.1 ih.2

/-- C2: the send cap is soft — every reachable run state has sent at most targetCap + (concurrency - 1) successful sends (and its successful rows equal the sent counter), and once sent has reached targetCap no step increases the number of in-flight tasks. -/
theorem C2_soft_cap (cfg : RunCfg) (ledger0 : List String) (tasks : List RTask)
    (hc : 1 ≤ cfg.conc) {s : RunSt}
    (hr : Reachable cfg (initSt ledger0 tasks) s) :
    s.sent ≤ cfg.cap + (cfg.conc - 1) ∧
    s.rows.countP (fun r => r.sentOk) = s.sent ∧
    (∀ u u' : RunSt, Step cfg u u' → cfg.cap ≤ u.sent → inflight u' ≤ inflight u) := by
  obtain ⟨h1, h2⟩ := C2_inv_reach cfg ledger0 tasks hc hr
  exact ⟨by omega, h2, fun u u' h hcap => C2_no_new_inflight cfg h hcap⟩

/-- C2 witness at a concrete configuration and the initial state. -/
theorem C2_soft_cap_witness :
    (initSt [] []).sent ≤ 2 + (1 - 1) ∧
    (initSt ([] : List String) ([] : List RTask)).rows.countP (fun r => r.sentOk)
      = (initSt [] []).sent :=
  ⟨(C2_soft_cap ⟨2, 1, false, false⟩ [] [] (by decide) Relation.ReflTransGen.refl).1,
   (C2_soft_cap ⟨2, 1, false, false⟩ [] [] (by decide) Relation.ReflTransGen.refl).2.1⟩

lemma mem_update {l₁ l₂ : List (RTask × Phase)} {t : RTask} {ph ph' : Phase}
    {tp : RTask × Phase} (h : tp ∈ l₁ ++ (t, ph') :: l₂) :
    tp ∈ l₁ ++ (t, ph) :: l₂ ∨ tp = (t, ph') := by
  simp only [List.mem_append, List.mem_cons] at h ⊢
  tauto

lemma addUnique_mem_of_mem {l : List String} {a e : String} (h : a ∈ l) :
    a ∈ addUnique l e := by
  unfold addUnique
  by_cases he : e ∈ l
  · rw [if_pos he]; exact h
  · rw [if_neg he]; exact List.mem_append_left _ h

lemma C3_inv_step (cfg : RunCfg) (ledger0 : List String)
    (hip : cfg.ignorePrev = false) (hrs : cfg.resend = false)
    {s s' : RunSt} (h : Step cfg s s') (hI : C3Inv ledger0 s) :
    C3Inv ledger0 s' := by
  obtain ⟨hA, hB, hC, hD⟩ := hI
  cases h with
  | cancel => exact ⟨hA, hB, hC, hD⟩
  | startGuardFail l₁ l₂ t htasks hconc hrun hguard =>
    refine ⟨hA, ?_, ?_, hD⟩
    · intro tp hmem hfb
      rcases mem_update hmem with hold | rfl
      · exact hB tp (by rw [htasks]; exact hold) hfb
      · have := hrun hfb
        rw [hrs] at this
        cases this
    · intro tp hmem hsend e he
      rcases mem_update hmem with hold | rfl
      · exact hC tp (by rw [htasks]; exact hold) hsend e he
      · simp at hsend
  | startSkipPrimary l₁ l₂ t htasks hconc hkind hguard hskip =>
    refine ⟨hA, ?_, ?_, hD⟩
    · intro tp hmem hfb
      rcases mem_update hmem with hold | rfl
      · exact hB tp (by rw [htasks]; exact hold) hfb
      · rw [hkind] at hfb; cases hfb
    · intro tp hmem hsend e he
      rcases mem_update hmem with hold | rfl
      · exact hC tp (by rw [htasks]; exact hold) hsend e he
      · simp at hsend
  | startLookPrimary l₁ l₂ t w htasks hconc hkind hguard hweb hfresh =>
    refine ⟨hA, ?_, ?_, hD⟩
    · intro tp hmem hfb
      rcases mem_update hmem with hold | rfl
      · exact hB tp (by rw [htasks]; exact hold) hfb
      · rw [hkind] at hfb; cases hfb
    · intro tp hmem hsend e he
      rcases mem_update hmem with hold | rfl
      · exact hC tp (by rw [htasks]; exact hold) hsend e he
      · simp at hsend
  | startSkipFallback l₁ l₂ t htasks hconc hkind hrs2 hguard hweb =>
    rw [hrs] at hrs2; cases hrs2
  | startLookFallback l₁ l₂ t w htasks hconc hkind hrs2 hguard hweb =>
    rw [hrs] at hrs2; cases hrs2
  | lookNoEmailPrimary l₁ l₂ t htasks hkind hmail =>
    refine ⟨hA, ?_, ?_, hD⟩
    · intro tp hmem hfb
      rcases mem_update hmem with hold | rfl
      · exact hB tp (by rw [htasks]; exact hold) hfb
      · rw [hkind] at hfb; cases hfb
    · intro tp hmem hsend e he
      rcases mem_update hmem with hold | rfl
      · exact hC tp (by rw [htasks]; exact hold) hsend e he
      · simp at hsend
  | lookNoEmailFallback l₁ l₂ t htasks hkind hmail =>
    have := hB (t, Phase.looking) (by rw [htasks]; simp) hkind
    cases this
  | lookDedupePrimary l₁ l₂ t e0 htasks hkind hmail hdup =>
    refine ⟨hA, ?_, ?_, hD⟩
    · intro tp hmem hfb
      rcases mem_update hmem with hold | rfl
      · exact hB tp (by rw [htasks]; exact hold) hfb
      · rw [hkind] at hfb; cases hfb
    · intro tp hmem hsend e he
      rcases mem_update hmem with hold | rfl
      · exact hC tp (by rw [htasks]; exact hold) hsend e he
      · simp at hsend
  | lookDedupeFallback l₁ l₂ t e0 htasks hkind hmail hdup =>
    have := hB (t, Phase.looking) (by rw [htasks]; simp) hkind
    cases this
  | lookToSendPrimary l₁ l₂ t e0 htasks hkind hmail hfresh =>
    refine ⟨hA, ?_, ?_, hD⟩
    · intro tp hmem hfb
      rcases mem_update hmem with hold | rfl
      · exact hB tp (by rw [htasks]; exact hold) hfb
      · rw [hkind] at hfb; cases hfb
    · intro tp hmem hsend e he
      rcases mem_update hmem with hold | rfl
      · exact hC tp (by rw [htasks]; exact hold) hsend e he
      · simp [primaryDup, hip] at hfresh
        have he0 : e = e0 := by
          have hmm : some e = some e0 := by rw [← he, hmail]
          exact Option.some.inj hmm
        intro hk
        have hled := hA (lowerStr e) hk
        rw [he0] at hled
        exact (hfresh.1 hled).elim
  | lookToSendFallback l₁ l₂ t e0 htasks hkind hmail hfresh =>
    have := hB (t, Phase.looking) (by rw [htasks]; simp) hkind
    cases this
  | sendOkPrimary l₁ l₂ t e0 htasks hkind hmail hok =>
    refine ⟨?_, ?_, ?_, ?_⟩
    · intro k hk
      exact addUnique_mem_of_mem (hA k hk)
    · intro tp hmem hfb
      rcases mem_update hmem with hold | rfl
      · exact hB tp (by rw [htasks]; exact hold) hfb
      · have := hB (t, Phase.sending) (by rw [htasks]; simp) hfb
        cases this
    · intro tp hmem hsend e he
      rcases mem_update hmem with hold | rfl
      · exact hC tp (by rw [htasks]; exact hold) hsend e he
      · simp at hsend
    · intro r hr
      rcases List.mem_append.mp hr with hold | hnew
      · exact hD r hold
      · have : r = ⟨e0, true⟩ := by simpa using hnew
        rw [this]
        exact hC (t, Phase.sending) (by rw [htasks]; simp) rfl e0 hmail
  | sendOkFallback l₁ l₂ t e0 htasks hkind hmail hok =>
    have := hB (t, Phase.sending) (by rw [htasks]; simp) hkind
    cases this
  | sendFail l₁ l₂ t e0 htasks hmail hok =>
    refine ⟨hA, ?_, ?_, ?_⟩
    · intro tp hmem hfb
      rcases mem_update hmem with hold | rfl
      · exact hB tp (by rw [htasks]; exact hold) hfb
      · have := hB (t, Phase.sending) (by rw [htasks]; simp) hfb
        cases this
    · intro tp hmem hsend e he
      rcases mem_update hmem with hold | rfl
      · exact hC tp (by rw [htasks]; exact hold) hsend e he
      · simp at hsend
    · intro r hr
      rcases List.mem_append.mp hr with hold | hnew
      · exact hD r hold
      · have : r = ⟨e0, false⟩ := by simpa using hnew
        rw [this]
        exact hC (t, Phase.sending) (by rw [htasks]; simp) rfl e0 hmail

lemma C3Inv_init (ledger0 : List String) (tasks : List RTask) :
    C3Inv ledger0 (initSt ledger0 tasks) := by
  refine ⟨fun k hk => hk, ?_, ?_, ?_⟩
  · intro tp hmem hfb
    simp only [initSt, List.mem_map] at hmem
    obtain ⟨t, -, rfl⟩ := hmem
    rfl
  · intro tp hmem hsend e he
    simp only [initSt, List.mem_map] at hmem
    obtain ⟨t, -, rfl⟩ := hmem
    cases hsend
  · intro r hr
    cases hr

/-- C3: with ignorePrevious unset AND the RESEND_ON_SHORTFALL fallback pass disabled, no address present in the SENT ledger before the run receives any send attempt: every produced row is to an address whose key is outside the initial ledger. -/
theorem C3_dedupe_ledger (cfg : RunCfg) (ledger0 : List String) (tasks : List RTask)
    (hip : cfg.ignorePrev = false) (hrs : cfg.resend = false)
    {s : RunSt} (hr : Reachable cfg (initSt ledger0 tasks) s) :
    ∀ r ∈ s.rows, lowerStr r.email ∉ ledger0 := by
  have hinv : C3Inv ledger0 s := by
    induction hr with
    | refl => exact C3Inv_init ledger0 tasks
    | tail _ hstep ih => exact C3_inv_step cfg ledger0 hip hrs hstep ih
  exact hinv.2.2.2

/-- C3 counterexample: with ignorePrevious unset but RESEND_ON_SHORTFALL on, a three-step run reaches a state whose rows contain a successful send to an address already in the initial ledger. -/
theorem C3_counterexample :
    cfgC3x.ignorePrev = false ∧
    Reachable cfgC3x (initSt ["a@b.com"] [tC3x]) s3C3x ∧
    ∃ r ∈ s3C3x.rows, r.sentOk = true ∧
      lowerStr r.email ∈ (initSt ["a@b.com"] [tC3x]).ledger := by
  refine ⟨rfl, ?_, ⟨"a@b.com", true⟩, by simp [s3C3x], rfl, by decide⟩
  have h1 : Step cfgC3x (initSt ["a@b.com"] [tC3x]) s1C3x :=
    Step.startLookFallback _ [] [] tC3x "http://x.com" rfl (by decide) rfl rfl
      ⟨rfl, by decide⟩ rfl
  have h2 : Step cfgC3x s1C3x s2C3x :=
    Step.lookToSendFallback _ [] [] tC3x "a@b.com" rfl rfl rfl (by simp [s1C3x, initSt])
  have h3 : Step cfgC3x s2C3x s3C3x :=
    Step.sendOkFallback _ [] [] tC3x "a@b.com" rfl rfl rfl rfl
  exact Relation.ReflTransGen.tail (Relation.ReflTransGen.tail
    (Relation.ReflTransGen.single h1) h2) h3

lemma reachC3w : Reachable cfgC3w (initSt ["a@b.com"] [tC3w]) s3C3w := by
  have h1 : Step cfgC3w (initSt ["a@b.com"] [tC3w]) s1C3w :=
    Step.startLookPrimary _ [] [] tC3w "http://x.com" rfl (by decide) rfl
      ⟨rfl, by decide⟩ rfl (by simp [initSt])
  have h2 : Step cfgC3w s1C3w s2C3w :=
    Step.lookToSendPrimary _ [] [] tC3w "c@d.com" rfl rfl rfl
      (by unfold primaryDup; decide)
  have h3 : Step cfgC3w s2C3w s3C3w :=
    Step.sendOkPrimary _ [] [] tC3w "c@d.com" rfl rfl rfl rfl
  exact Relation.ReflTransGen.tail (Relation.ReflTransGen.tail
    (Relation.ReflTransGen.single h1) h2) h3

/-- C3 witness: the dedupe theorem applied to a concrete three-step primary-pass run, instantiated at the single row it produced. -/
theorem C3_dedupe_ledger_witness :
    lowerStr (Row.mk "c@d.com" true).email ∉ ["a@b.com"] :=
  C3_dedupe_ledger cfgC3w ["a@b.com"] [tC3w] rfl rfl reachC3w
    ⟨"c@d.com", true⟩ (by simp [s3C3w])

/-- C10: a failed send attempt leaves the persistent SENT ledger unchanged; the ledger grows only together with a successful-send row, by adding that row lowercased address. -/
theorem C10_failed_send_ledger (cfg : RunCfg) {s s' : RunSt} (h : Step cfg s s') :
    ((∃ e, s'.rows = s.rows ++ [⟨e, false⟩]) → s'.ledger = s.ledger) ∧
    (s'.ledger ≠ s.ledger →
      ∃ e, s'.rows = s.rows ++ [⟨e, true⟩] ∧
           s'.ledger = addUnique s.ledger (lowerStr e)) := by
  cases h with
  | sendOkPrimary l₁ l₂ t e htasks hkind hmail hok =>
    constructor
    · rintro ⟨e', he⟩
      exfalso
      have h2 := List.append_cancel_left he
      simp at h2
    · intro _
      exact ⟨e, rfl, rfl⟩
  | sendOkFallback l₁ l₂ t e htasks hkind hmail hok =>
    exact ⟨fun _ => rfl, fun hne => absurd rfl hne⟩
  | sendFail l₁ l₂ t e htasks hmail hok =>
    exact ⟨fun _ => rfl, fun hne => absurd rfl hne⟩
  | cancel => exact ⟨fun _ => rfl, fun hne => absurd rfl hne⟩
  | startGuardFail l₁ l₂ t htasks hconc hrun hguard =>
    exact ⟨fun _ => rfl, fun hne => absurd rfl hne⟩
  | startSkipPrimary l₁ l₂ t htasks hconc hkind hguard hskip =>
    exact ⟨fun _ => rfl, fun hne => absurd rfl hne⟩
  | startLookPrimary l₁ l₂ t w htasks hconc hkind hguard hweb hfresh =>
    exact ⟨fun _ => rfl, fun hne => absurd rfl hne⟩
  | startSkipFallback l₁ l₂ t htasks hconc hkind hrs hguard hweb =>
    exact ⟨fun _ => rfl, fun hne => absurd rfl hne⟩
  | startLookFallback l₁ l₂ t w htasks hconc hkind hrs hguard hweb =>
    exact ⟨fun _ => rfl, fun hne => absurd rfl hne⟩
  | lookNoEmailPrimary l₁ l₂ t htasks hkind hmail =>
    exact ⟨fun _ => rfl, fun hne => absurd rfl hne⟩
  | lookNoEmailFallback l₁ l₂ t htasks hkind hmail =>
    exact ⟨fun _ => rfl, fun hne => absurd rfl hne⟩
  | lookDedupePrimary l₁ l₂ t e htasks hkind hmail hdup =>
    exact ⟨fun _ => rfl, fun hne => absurd rfl hne⟩
  | lookDedupeFallback l₁ l₂ t e htasks hkind hmail hdup =>
    exact ⟨fun _ => rfl, fun hne => absurd rfl hne⟩
  | lookToSendPrimary l₁ l₂ t e htasks hkind hmail hfresh =>
    exact ⟨fun _ => rfl, fun hne => absurd rfl hne⟩
  | lookToSendFallback l₁ l₂ t e htasks hkind hmail hfresh =>
    exact ⟨fun _ => rfl, fun hne => absurd rfl hne⟩

theorem C10_failed_send_ledger_witness :
    stC10f.rows = stC10.rows ++ [⟨"x@y.com", false⟩] ∧
    stC10f.ledger = stC10.ledger :=
  ⟨rfl, (C10_failed_send_ledger ⟨5, 2, false, false⟩
      (Step.sendFail stC10 [] [] tC10 "x@y.com" rfl rfl rfl)).1
      ⟨"x@y.com", rfl⟩⟩

end LF6000
